import Mathlib

/-!
Verification of the natural-language specification of vtkImageReslice
(src/Imaging/Core/vtkImageReslice.cxx) against the source, via a shallow
embedding in Lean.  Machine doubles are modelled by exact rationals; the
rounding helpers of vtkInterpolationMath (declared in
vtkImageInterpolatorInternals.h, which is not part of the repository
snapshot) are modelled from the spec.
-/

namespace VTKReslice

/-- Scalar kinds supported by the reslice engine (the template alias macro
instantiates exactly these, with 64-bit integers disabled at the top of the
source file). -/
inductive VTKType where
  | int8 | uint8 | int16 | uint16 | int32 | uint32 | float32 | float64
  deriving DecidableEq, Repr

/-- Whether a scalar kind is a floating-point kind (`VTK_FLOAT` or
`VTK_DOUBLE` in the source's checks). -/
def isFloatType : VTKType → Bool
  | .float32 => true
  | .float64 => true
  | _ => false

/-- Minimum representable value of a scalar kind, as used by
`vtkResliceClamp` and `vtkDataArray::GetDataTypeMin`.  For the float kinds
these are the negated largest finite magnitudes. -/
def typeMin : VTKType → ℚ
  | .int8 => -128
  | .uint8 => 0
  | .int16 => -32768
  | .uint16 => 0
  | .int32 => -2147483648
  | .uint32 => 0
  | .float32 => -((2 ^ 24 - 1) * 2 ^ 104)
  | .float64 => -((2 ^ 53 - 1) * 2 ^ 971)

/-- Maximum representable value of a scalar kind, as used by
`vtkResliceClamp` and `vtkDataArray::GetDataTypeMax`. -/
def typeMax : VTKType → ℚ
  | .int8 => 127
  | .uint8 => 255
  | .int16 => 32767
  | .uint16 => 65535
  | .int32 => 2147483647
  | .uint32 => 4294967295
  | .float32 => (2 ^ 24 - 1) * 2 ^ 104
  | .float64 => (2 ^ 53 - 1) * 2 ^ 971

theorem typeMin_le_typeMax (t : VTKType) : typeMin t ≤ typeMax t := by
  cases t <;> simp [typeMin, typeMax] <;> norm_num

/-- Modelled from the spec: `vtkInterpolationMath::Round`, the rounding
helper used consistently by extent analysis and execution
(`round_half_to_even or equivalent`); ties do not occur in any concrete
instance below, so the half-up convention is used. -/
def rsRound (x : ℚ) : ℤ := ⌊x + 1 / 2⌋

/-- Modelled from the spec: `vtkInterpolationMath::Floor` with its
fractional part (`floor_with_fraction`). -/
def rsFloor (x : ℚ) : ℤ := ⌊x⌋

/-- Saturation helper of `vtkResliceClamp<F>(x, xmin, xmax)`: raise to the
minimum, then lower to the maximum. -/
def rsClampQ (x lo hi : ℚ) : ℚ := min (max x lo) hi

/-- `vtkInterpolateRound` for a target scalar kind: integer kinds round the
value, floating kinds store it unchanged. -/
def interpolateRound (t : VTKType) (v : ℚ) : ℚ :=
  if isFloatType t then v else (rsRound v : ℚ)

/-- `vtkResliceClamp` for a target scalar kind: integer kinds clamp to the
kind's range and round, floating kinds store the value unchanged. -/
def resliceClamp (t : VTKType) (v : ℚ) : ℚ :=
  if isFloatType t then v else (rsRound (rsClampQ v (typeMin t) (typeMax t)) : ℚ)

/-- Numeric codes of the interpolation modes (`VTK_RESLICE_NEAREST`,
`VTK_RESLICE_LINEAR`, `VTK_RESLICE_CUBIC`). -/
def RESLICE_NEAREST : ℤ := 0

def RESLICE_LINEAR : ℤ := 1

def RESLICE_CUBIC : ℤ := 3

/-- Slab compositing operators (`VTK_IMAGE_SLAB_*`). -/
inductive SlabMode where
  | min | max | mean | sum
  deriving DecidableEq, Repr

/-- The `forceClamping` value computed at both call sites of
`vtkGetConversionFunc`: interpolation above linear, or a multi-sample slab
composited with the sum operator. -/
def forceClampingOf (interpolationMode : ℤ) (nsamples : ℕ) (slabMode : SlabMode) : Bool :=
  decide (RESLICE_LINEAR < interpolationMode) ||
    (decide (1 < nsamples) && decide (slabMode = SlabMode.sum))

/-- Range test of `vtkGetConversionFunc`: maps the input kind's range
through the scalar shift and scale, swaps the endpoints if the scale is
negative, and reports whether the result escapes the output kind's range. -/
def rangeNeedsClamp (inputType dataType : VTKType) (scalarShift scalarScale : ℚ) : Bool :=
  decide
      ((if (typeMin inputType + scalarShift) * scalarScale >
            (typeMax inputType + scalarShift) * scalarScale then
          (typeMax inputType + scalarShift) * scalarScale
        else (typeMin inputType + scalarShift) * scalarScale) < typeMin dataType) ||
    decide
      (typeMax dataType <
        if (typeMin inputType + scalarShift) * scalarScale >
            (typeMax inputType + scalarShift) * scalarScale then
          (typeMin inputType + scalarShift) * scalarScale
        else (typeMax inputType + scalarShift) * scalarScale)

/-- Selection logic of `vtkGetConversionFunc`: returns `true` exactly when
the saturating `Clamp` conversion is chosen rather than the plain rounding
`Convert`. -/
def conversionClamps (inputType dataType : VTKType) (scalarShift scalarScale : ℚ)
    (forceClamping : Bool) : Bool :=
  (if !isFloatType dataType && !forceClamping then
      rangeNeedsClamp inputType dataType scalarShift scalarScale
    else forceClamping) &&
    !isFloatType dataType

/-- Statement of the spec's fit condition: the image of the input range
under the scalar shift/scale lies inside the output kind's range. -/
def shiftedRangeFits (inputType dataType : VTKType) (scalarShift scalarScale : ℚ) : Prop :=
  typeMin dataType ≤
      min ((typeMin inputType + scalarShift) * scalarScale)
        ((typeMax inputType + scalarShift) * scalarScale) ∧
    max ((typeMin inputType + scalarShift) * scalarScale)
        ((typeMax inputType + scalarShift) * scalarScale) ≤ typeMax dataType

theorem swap_lo_eq_min (a b : ℚ) : (if a > b then b else a) = min a b := by
  rcases le_or_lt a b with h | h
  · rw [if_neg (not_lt.mpr h), min_eq_left h]
  · rw [if_pos h, min_eq_right h.le]

theorem swap_hi_eq_max (a b : ℚ) : (if a > b then a else b) = max a b := by
  rcases le_or_lt a b with h | h
  · rw [if_neg (not_lt.mpr h), max_eq_right h]
  · rw [if_pos h, max_eq_left h.le]

theorem range_check_iff (a b lo hi : ℚ) :
    ((min a b < lo) ∨ (hi < max a b)) ↔ ¬(lo ≤ min a b ∧ max a b ≤ hi) := by
  constructor
  · rintro (h | h) ⟨h1, h2⟩
    · exact absurd h1 (not_le.mpr h)
    · exact absurd h2 (not_le.mpr h)
  · intro h
    rcases lt_or_le (min a b) lo with h' | h'
    · exact Or.inl h'
    · rcases lt_or_le hi (max a b) with h'' | h''
      · exact Or.inr h''
      · exact absurd ⟨h', h''⟩ h

theorem rangeNeedsClamp_iff (inputType dataType : VTKType) (scalarShift scalarScale : ℚ) :
    rangeNeedsClamp inputType dataType scalarShift scalarScale = true ↔
      ¬ shiftedRangeFits inputType dataType scalarShift scalarScale := by
  unfold rangeNeedsClamp shiftedRangeFits
  rw [swap_lo_eq_min, swap_hi_eq_max]
  simp only [Bool.or_eq_true, decide_eq_true_eq]
  exact range_check_iff _ _ _ _

/-- Claim C6: during float-to-output conversion, the saturating clamp is
applied if and only if the output type is not floating point and either the
interpolation mode is above linear, or more than one slab sample is
composited with the sum operator, or the shifted and scaled input value
range does not fit within the output type's range. -/
theorem claim_C6_conversion_clamp (inputType dataType : VTKType)
    (scalarShift scalarScale : ℚ) (interpolationMode : ℤ) (nsamples : ℕ)
    (slabMode : SlabMode) :
    conversionClamps inputType dataType scalarShift scalarScale
        (forceClampingOf interpolationMode nsamples slabMode) = true ↔
      isFloatType dataType = false ∧
        (RESLICE_LINEAR < interpolationMode ∨ (1 < nsamples ∧ slabMode = SlabMode.sum) ∨
          ¬ shiftedRangeFits inputType dataType scalarShift scalarScale) := by
  have hforce_iff : forceClampingOf interpolationMode nsamples slabMode = true ↔
      (RESLICE_LINEAR < interpolationMode ∨ (1 < nsamples ∧ slabMode = SlabMode.sum)) := by
    simp [forceClampingOf]
  by_cases hf : isFloatType dataType
  · simp [conversionClamps, hf]
  · rw [Bool.not_eq_true] at hf
    by_cases hforce : forceClampingOf interpolationMode nsamples slabMode = true
    · have hdisj := hforce_iff.mp hforce
      have hval : conversionClamps inputType dataType scalarShift scalarScale
          (forceClampingOf interpolationMode nsamples slabMode) = true := by
        simp [conversionClamps, hforce, hf]
      rw [hval]
      constructor
      · intro _
        exact ⟨hf, hdisj.imp id Or.inl⟩
      · intro _
        rfl
    · rw [Bool.not_eq_true] at hforce
      have hnodisj : ¬(RESLICE_LINEAR < interpolationMode ∨
          (1 < nsamples ∧ slabMode = SlabMode.sum)) := fun hc => by
        rw [hforce_iff.mpr hc] at hforce
        exact Bool.noConfusion hforce
      have hval : conversionClamps inputType dataType scalarShift scalarScale
          (forceClampingOf interpolationMode nsamples slabMode) =
            rangeNeedsClamp inputType dataType scalarShift scalarScale := by
        simp [conversionClamps, hforce, hf]
      rw [hval, rangeNeedsClamp_iff]
      constructor
      · intro h
        exact ⟨hf, Or.inr (Or.inr h)⟩
      · rintro ⟨-, h | h | h⟩
        · exact absurd (Or.inl h) hnodisj
        · exact absurd (Or.inr h) hnodisj
        · exact h

/-! Slab compositors (`vtkImageResliceSlabSum`, `vtkImageResliceSlabTrap`
and the `vtkImageResliceComposite` / `vtkImageResliceRowComp` wrappers).
The source loops walk a strided float buffer; per component they compute
the scaled sum (respectively trapezoid-weighted sum, minimum, maximum) of
the `n` sample values, which is what the list functions below compute. -/

/-- Per-component effect of `vtkImageResliceSlabSum`: the sum of the sample
values times the factor `f` (the loop seeds with the first sample and adds
the remaining `n - 1`). -/
def slabSum (l : List ℚ) (f : ℚ) : ℚ :=
  match l with
  | [] => 0
  | x :: xs => (xs.foldl (· + ·) x) * f

/-- Per-component effect of `vtkImageResliceSlabTrap`: first and last
samples weighted one half, times the factor `f`. -/
def slabTrap (l : List ℚ) (f : ℚ) : ℚ :=
  match l with
  | [] => 0
  | [x] => x * f
  | x :: y :: ys =>
    (((y :: ys).dropLast.foldl (· + ·) (x * (1 / 2))) +
        ((y :: ys).getLast (by simp)) * (1 / 2)) * f

/-- Per-component effect of `vtkImageResliceComposite<F>::MinValue`. -/
def slabMin (l : List ℚ) : ℚ :=
  match l with
  | [] => 0
  | x :: xs => xs.foldl min x

/-- Per-component effect of `vtkImageResliceComposite<F>::MaxValue`. -/
def slabMax (l : List ℚ) : ℚ :=
  match l with
  | [] => 0
  | x :: xs => xs.foldl max x

/-- `vtkImageResliceComposite<F>::MeanValue`: slab sum with `f = 1/n`. -/
def compositeMeanValue (l : List ℚ) : ℚ := slabSum l (1 / l.length)

/-- `vtkImageResliceComposite<F>::SumValues`: slab sum with `f = 1`. -/
def compositeSumValues (l : List ℚ) : ℚ := slabSum l 1

/-- Compositing operator dispatch, mirroring `vtkGetCompositeFunc` and
`vtkGetRowCompositeFunc` (both families compute the same per-component
values; the row variants fuse the loop over samples). -/
def compositeOp (slabMode : SlabMode) (trapezoid : Bool) (l : List ℚ) : ℚ :=
  match slabMode with
  | .min => slabMin l
  | .max => slabMax l
  | .mean => if trapezoid then slabTrap l (1 / (l.length - 1)) else compositeMeanValue l
  | .sum => if trapezoid then slabTrap l 1 else compositeSumValues l

theorem foldl_add_eq_add_sum (xs : List ℚ) (a : ℚ) : xs.foldl (· + ·) a = a + xs.sum := by
  induction xs generalizing a with
  | nil => simp
  | cons y ys ih =>
    rw [List.foldl_cons, ih, List.sum_cons]
    ring

theorem slabSum_eq_sum_mul (l : List ℚ) (f : ℚ) : slabSum l f = l.sum * f := by
  cases l with
  | nil => simp [slabSum]
  | cons x xs =>
    show (xs.foldl (· + ·) x) * f = (x :: xs).sum * f
    rw [foldl_add_eq_add_sum, List.sum_cons]

theorem compositeMean_eq_sum_div (l : List ℚ) :
    compositeMeanValue l = compositeSumValues l / l.length := by
  unfold compositeMeanValue compositeSumValues
  rw [slabSum_eq_sum_mul, slabSum_eq_sum_mul, mul_one, mul_one_div]

/-- Claim C7: for every slab of composited samples and every component,
when the output type is an integer type and no saturation occurs, the
converted result of the mean compositor equals the (float) result of the
sum compositor divided by the number of samples and rounded per the
conversion rule; both the plain rounding conversion and the saturating
conversion (which the sum path forces) give this value. -/
theorem claim_C7_slab_mean_eq_sum_div (outputType : VTKType) (l : List ℚ)
    (hfl : isFloatType outputType = false)
    (hlo : typeMin outputType ≤ compositeSumValues l / l.length)
    (hhi : compositeSumValues l / l.length ≤ typeMax outputType) :
    interpolateRound outputType (compositeMeanValue l) =
        (rsRound (compositeSumValues l / l.length) : ℚ) ∧
      resliceClamp outputType (compositeMeanValue l) =
        (rsRound (compositeSumValues l / l.length) : ℚ) := by
  rw [compositeMean_eq_sum_div l]
  constructor
  · rw [interpolateRound, if_neg (by rw [hfl]; exact Bool.noConfusion)]
  · rw [resliceClamp, if_neg (by rw [hfl]; exact Bool.noConfusion)]
    have : rsClampQ (compositeSumValues l / l.length) (typeMin outputType)
        (typeMax outputType) = compositeSumValues l / l.length := by
      unfold rsClampQ
      rw [max_eq_left hlo, min_eq_left hhi]
    rw [this]

/-- Witness for claim C7 at a concrete slab: samples `[3, 4]`, `uint8`
output; mean gives `round(7/2) = 4` matching `round(sum/2)`. -/
theorem claim_C7_witness :
    isFloatType VTKType.uint8 = false ∧
      typeMin VTKType.uint8 ≤ compositeSumValues [3, 4] / ([3, 4] : List ℚ).length ∧
      compositeSumValues [3, 4] / ([3, 4] : List ℚ).length ≤ typeMax VTKType.uint8 ∧
      interpolateRound VTKType.uint8 (compositeMeanValue [3, 4]) =
        (rsRound (compositeSumValues [3, 4] / ([3, 4] : List ℚ).length) : ℚ) :=
  ⟨by decide, by norm_num [compositeSumValues, slabSum, typeMin],
    by norm_num [compositeSumValues, slabSum, typeMax],
    (claim_C7_slab_mean_eq_sum_div VTKType.uint8 [3, 4] (by decide)
        (by norm_num [compositeSumValues, slabSum, typeMin])
        (by norm_num [compositeSumValues, slabSum, typeMax])).1⟩

/-! Background pixel construction (`vtkCopyBackgroundColor`,
`vtkAllocBackgroundPixel`). -/

/-- Value stored by `vtkCopyBackgroundColor` in component `j` of the
background pixel: the background color clamped via `vtkResliceClamp` for
`j < min(numComponents, 4)`, and zero for the remaining components. -/
def backgroundComp (dcolor : ℕ → ℚ) (scalarType : VTKType) (numComponents : ℕ)
    (j : ℕ) : ℚ :=
  if j < min numComponents 4 then resliceClamp scalarType (dcolor j) else 0

/-- The claim's description of a stored component: the color value clamped
to the output type's range and rounded to that type (rounding is the
identity for the float kinds). -/
def clampRoundSpec (t : VTKType) (v : ℚ) : ℚ :=
  if isFloatType t then rsClampQ v (typeMin t) (typeMax t)
  else (rsRound (rsClampQ v (typeMin t) (typeMax t)) : ℚ)

/-- Claim C10: for every output scalar type and component count `N`, the
background pixel holds in its first `min(N, 4)` components the background
color values clamped to the output type's range and rounded to that type,
and exactly zero in every component beyond the fourth.  (For floating
output kinds the stored value is the color itself, which coincides with the
clamped value whenever the color is finite for that kind; this is the
hypothesis `hfin`.) -/
theorem claim_C10_background_pixel (scalarType : VTKType) (numComponents : ℕ)
    (dcolor : ℕ → ℚ)
    (hfin : isFloatType scalarType = true →
      ∀ j < 4, typeMin scalarType ≤ dcolor j ∧ dcolor j ≤ typeMax scalarType) :
    (∀ j < min numComponents 4,
        backgroundComp dcolor scalarType numComponents j =
          clampRoundSpec scalarType (dcolor j)) ∧
      (∀ j, 4 ≤ j → j < numComponents →
        backgroundComp dcolor scalarType numComponents j = 0) := by
  constructor
  · intro j hj
    rw [backgroundComp, if_pos hj, resliceClamp, clampRoundSpec]
    by_cases hf : isFloatType scalarType
    · rw [if_pos hf, if_pos hf]
      have hj4 : j < 4 := lt_of_lt_of_le hj (min_le_right _ _)
      rcases hfin hf j hj4 with ⟨h1, h2⟩
      unfold rsClampQ
      rw [max_eq_left h1, min_eq_left h2]
    · rw [if_neg hf, if_neg hf]
  · intro j hj4 hjn
    rw [backgroundComp, if_neg]
    intro hlt
    exact absurd (lt_of_lt_of_le hlt (min_le_right _ _)) (not_lt.mpr hj4)

/-- Witness for claim C10: `uint8`, six components, color `(300, -5, 7, 2)`:
stored pixel is `(255, 0, 7, 2, 0, 0)`. -/
theorem claim_C10_witness :
    ((isFloatType VTKType.uint8 = true →
        ∀ j < 4, typeMin VTKType.uint8 ≤ ([300, -5, 7, 2].getD j 0 : ℚ) ∧
          ([300, -5, 7, 2].getD j 0 : ℚ) ≤ typeMax VTKType.uint8) ∧
      backgroundComp (fun j => ([300, -5, 7, 2].getD j 0 : ℚ)) VTKType.uint8 6 0 =
        clampRoundSpec VTKType.uint8 300) ∧
      backgroundComp (fun j => ([300, -5, 7, 2].getD j 0 : ℚ)) VTKType.uint8 6 5 = 0 :=
  ⟨⟨fun h => absurd h (by decide),
      (claim_C10_background_pixel VTKType.uint8 6 (fun j => ([300, -5, 7, 2].getD j 0 : ℚ))
          (fun h => absurd h (by decide))).1 0 (by decide)⟩,
    (claim_C10_background_pixel VTKType.uint8 6 (fun j => ([300, -5, 7, 2].getD j 0 : ℚ))
        (fun h => absurd h (by decide))).2 5 (by decide) (by decide)⟩

/-! Modification time (`vtkImageReslice::GetMTime`). -/

/-- Modification times that feed `GetMTime`: the filter's own time
(`Superclass::GetMTime`), and the times of the optional collaborators.  A
`none` entry models an unset (null) member. -/
structure MTimeState where
  own : ℕ
  resliceTransform : Option ℕ
  transformIsHomogeneous : Bool
  transformMatrixMTime : ℕ
  resliceAxes : Option ℕ
  interpolator : Option ℕ
  informationInput : Option ℕ

/-- `vtkImageReslice::GetMTime` (source lines 542-570): folds the maxima of
the present collaborator times into the superclass time.  The information
input is never consulted. -/
def getMTime (s : MTimeState) : ℕ :=
  let m0 := s.own
  let m1 :=
    match s.resliceTransform with
    | none => m0
    | some t =>
      let ma := max m0 t
      if s.transformIsHomogeneous then max ma s.transformMatrixMTime else ma
  let m2 :=
    match s.resliceAxes with
    | none => m1
    | some t => max m1 t
  match s.interpolator with
  | none => m2
  | some t => max m2 t

/-- The claim's description of the effective mtime: the maximum of the
filter's own time and the times of the reslice transform (with its matrix
when homogeneous), the reslice axes, the interpolator, and the information
input, whichever are set. -/
def claimedMTime (s : MTimeState) : ℕ :=
  (([s.own] ++
      (match s.resliceTransform with
      | none => []
      | some t => if s.transformIsHomogeneous then [t, s.transformMatrixMTime] else [t]) ++
      (s.resliceAxes.toList ++ s.interpolator.toList ++ s.informationInput.toList))).foldl
    max 0

/-- The amended description: identical to the claim but without the
information input. -/
def amendedMTime (s : MTimeState) : ℕ :=
  (([s.own] ++
      (match s.resliceTransform with
      | none => []
      | some t => if s.transformIsHomogeneous then [t, s.transformMatrixMTime] else [t]) ++
      (s.resliceAxes.toList ++ s.interpolator.toList))).foldl
    max 0

/-- Counterexample for claim C8 as stated: a filter state whose information
input has a larger modification time than everything else.  `GetMTime`
ignores it, so the returned time is not the claimed maximum. -/
theorem claim_C8_counterexample :
    getMTime ⟨1, none, false, 0, none, none, some 10⟩ ≠
      claimedMTime ⟨1, none, false, 0, none, none, some 10⟩ := by
  decide

/-- Claim C8 (amended): `GetMTime` returns the maximum of the filter's own
modification time and the modification times of the reslice transform
(including its internal matrix when the transform is homogeneous), the
reslice axes matrix, and the interpolator, whichever are set; the
information input's modification time is not included. -/
theorem claim_C8_mtime_amended (s : MTimeState) : getMTime s = amendedMTime s := by
  rcases s with ⟨own, tr, hom, tm, ax, ip, ii⟩
  rcases tr with _ | t <;> rcases hom with _ | _ <;> rcases ax with _ | a <;>
    rcases ip with _ | i <;>
    simp [getMTime, claimedMTime, amendedMTime, List.foldl]

/-! Stencil output versus x-axis splitting
(`vtkImageReslice::RequestData`, source lines 3210-3225). -/

/-- Split modes of the threaded driver (`vtkThreadedImageAlgorithm`). -/
inductive VTKSplitMode where
  | slab | beam | block
  deriving DecidableEq, Repr

/-- Driver-related state read by `RequestData` before spawning threads. -/
structure ThreadSplitState where
  generateStencilOutput : Bool
  splitPathLength : ℕ
  splitMode : VTKSplitMode

/-- The pre-thread adjustment in `vtkImageReslice::RequestData`: when the
stencil output is generated and the split path length is 3, warn if the
split mode is block, and truncate the split path length to 2.  Returns the
updated state and whether a warning was logged. -/
def requestDataSplitAdjust (s : ThreadSplitState) : ThreadSplitState × Bool :=
  if s.generateStencilOutput && s.splitPathLength == 3 then
    (⟨s.generateStencilOutput, 2, s.splitMode⟩, s.splitMode == VTKSplitMode.block)
  else (s, false)

/-- Modelled from the spec: the tile driver (`vtkThreadedImageAlgorithm`,
not part of the repository snapshot) splits the output along the axes
stored in the first `splitPathLength` entries of its split path, which
lists the axes in the order z, y, x; axis `0` is the output X axis. -/
def splitAxesUsed (splitPathLength : ℕ) : List ℕ := [2, 1, 0].take splitPathLength

/-- Claim C9: whenever the stencil output is generated and the split path
length is 3 at the start of `RequestData`, the split path length is reduced
to 2 before threads are spawned — so the output X axis is never among the
split axes — and a warning is logged exactly when the configured split mode
is block splitting. -/
theorem claim_C9_stencil_split (s : ThreadSplitState)
    (hg : s.generateStencilOutput = true) (hl : s.splitPathLength = 3) :
    (requestDataSplitAdjust s).1.splitPathLength = 2 ∧
      ((requestDataSplitAdjust s).2 = true ↔ s.splitMode = VTKSplitMode.block) ∧
      0 ∉ splitAxesUsed (requestDataSplitAdjust s).1.splitPathLength := by
  have hcond : (s.generateStencilOutput && s.splitPathLength == 3) = true := by
    rw [hg, hl]
    rfl
  unfold requestDataSplitAdjust
  rw [if_pos hcond]
  refine ⟨rfl, ?_, ?_⟩
  · simp
  · show 0 ∉ splitAxesUsed 2
    decide

/-- Witness for claim C9 at a concrete state: stencil output on, block
split mode, split path length 3. -/
theorem claim_C9_witness :
    ((⟨true, 3, VTKSplitMode.block⟩ : ThreadSplitState).generateStencilOutput = true ∧
        (⟨true, 3, VTKSplitMode.block⟩ : ThreadSplitState).splitPathLength = 3) ∧
      (requestDataSplitAdjust ⟨true, 3, VTKSplitMode.block⟩).1.splitPathLength = 2 ∧
        ((requestDataSplitAdjust ⟨true, 3, VTKSplitMode.block⟩).2 = true ↔
          (⟨true, 3, VTKSplitMode.block⟩ : ThreadSplitState).splitMode = VTKSplitMode.block) ∧
        0 ∉ splitAxesUsed (requestDataSplitAdjust ⟨true, 3, VTKSplitMode.block⟩).1.splitPathLength :=
  ⟨⟨rfl, rfl⟩, claim_C9_stencil_split ⟨true, 3, VTKSplitMode.block⟩ rfl rfl⟩

/-! Update-extent pre-pass (`vtkImageReslice::RequestUpdateExtent`). -/

/-- 4x4 index matrices, row then column. -/
abbrev Mat4 : Type := Fin 4 → Fin 4 → ℚ

/-- Sentinel initial bounds used by the corner scan. -/
def VTK_INT_MAX : ℤ := 2147483647

def VTK_INT_MIN : ℤ := -2147483648

/-- `extra = (kernelSize + 1) / 2 - 1` from the corner scan. -/
def supportExtra (kernelSize : ℕ) : ℤ := ((kernelSize + 1) / 2 : ℕ) - 1

theorem castSucc_zero3 : Fin.castSucc (0 : Fin 3) = (0 : Fin 4) := rfl

theorem castSucc_one3 : Fin.castSucc (1 : Fin 3) = (1 : Fin 4) := rfl

theorem castSucc_two3 : Fin.castSucc (2 : Fin 3) = (2 : Fin 4) := rfl

/-- Corner `jj` (0-7) of an output extent: the source reads
`outExt[jj % 2]`, `outExt[2 + (jj / 2) % 2]`, `outExt[4 + (jj / 4) % 2]`. -/
def cornerIndex (outExt : Fin 3 → ℤ × ℤ) (jj : ℕ) : Fin 3 → ℤ :=
  ![if jj % 2 = 0 then (outExt 0).1 else (outExt 0).2,
    if (jj / 2) % 2 = 0 then (outExt 1).1 else (outExt 1).2,
    if (jj / 4) % 2 = 0 then (outExt 2).1 else (outExt 2).2]

/-- Homogeneous image of an output index under the index matrix, following
the incremental evaluation `origin + idZ*zAxis + idY*yAxis + idX*xAxis`. -/
def mapPoint (m : Mat4) (c : Fin 3 → ℤ) : Fin 4 → ℚ := fun i =>
  ((m i 3 + (c 2 : ℚ) * m i 2) + (c 1 : ℚ) * m i 1) + (c 0 : ℚ) * m i 0

/-- The mapped point after the perspective divide, applied exactly when the
fourth coordinate differs from 1 (as in the source's `point[3] != 1.0`). -/
def perspPoint (m : Mat4) (c : Fin 3 → ℤ) : Fin 3 → ℚ := fun a =>
  if mapPoint m c 3 ≠ 1 then mapPoint m c a.castSucc * (1 / mapPoint m c 3)
  else mapPoint m c a.castSucc

/-- Lower-bound update of the odd-kernel branch: the new corner's rounded
position is compared against the running bound itself, and on update the
bound becomes `k - extra`. -/
def stepLoOdd (extra lo k : ℤ) : ℤ := if k < lo then k - extra else lo

/-- Upper-bound update of the odd-kernel branch. -/
def stepHiOdd (extra hi k : ℤ) : ℤ := if hi < k then k + extra else hi

/-- Per-corner update of one axis's running interval, from the loop body of
`RequestUpdateExtent` (even kernels use floor with a fraction bump on the
upper side, odd kernels use round on both sides). -/
def axisUpdate (kernelSize : ℕ) (p : ℚ) (st : ℤ × ℤ) : ℤ × ℤ :=
  if kernelSize % 2 = 0 then
    let k := rsFloor p
    let lo' := if k - supportExtra kernelSize < st.1 then k - supportExtra kernelSize else st.1
    let k2 := k + (if (p - (k : ℚ)) ≠ 0 then 1 else 0)
    let hi' := if st.2 < k2 + supportExtra kernelSize then k2 + supportExtra kernelSize else st.2
    (lo', hi')
  else
    (stepLoOdd (supportExtra kernelSize) st.1 (rsRound p),
      stepHiOdd (supportExtra kernelSize) st.2 (rsRound p))

/-- The slab pre-adjustment of the output request extent: for more than one
slab slice the z-range is widened by `(slabNumberOfSlices + 1) / 2` on both
sides before the corners are scanned. -/
def slabAdjustExtent (outExt : Fin 3 → ℤ × ℤ) (slabNumberOfSlices : ℕ) : Fin 3 → ℤ × ℤ :=
  if 1 < slabNumberOfSlices then
    ![outExt 0, outExt 1,
      ((outExt 2).1 - ((slabNumberOfSlices + 1) / 2 : ℕ),
        (outExt 2).2 + ((slabNumberOfSlices + 1) / 2 : ℕ))]
  else outExt

/-- Rounded positions of the 8 mapped corners along axis `j`. -/
def cornerRounds (m : Mat4) (outExt : Fin 3 → ℤ × ℤ) (j : Fin 3) : List ℤ :=
  (List.range 8).map fun jj => rsRound (perspPoint m (cornerIndex outExt jj) j)

/-- Axis `j` of the input update extent computed by the corner scan, before
clipping to the whole extent. -/
def preClipAxis (m : Mat4) (outExt : Fin 3 → ℤ × ℤ) (support : Fin 3 → ℕ) (j : Fin 3) :
    ℤ × ℤ :=
  ((List.range 8).map fun jj => perspPoint m (cornerIndex outExt jj) j).foldl
    (fun st p => axisUpdate (support j) p st) (VTK_INT_MAX, VTK_INT_MIN)

/-- The claim's union of per-corner intervals
`[round(p_j) - extra, round(p_j) + extra]` along axis `j`. -/
def unionAxis (m : Mat4) (outExt : Fin 3 → ℤ × ℤ) (support : Fin 3 → ℕ) (j : Fin 3) :
    ℤ × ℤ :=
  ((cornerRounds m outExt j).foldl min VTK_INT_MAX - supportExtra (support j),
    (cornerRounds m outExt j).foldl max VTK_INT_MIN + supportExtra (support j))

theorem axisUpdate_fold_odd (k : ℕ) (hodd : k % 2 = 1) (ps : List ℚ) (st : ℤ × ℤ) :
    ps.foldl (fun st p => axisUpdate k p st) st =
      ((ps.map rsRound).foldl (stepLoOdd (supportExtra k)) st.1,
        (ps.map rsRound).foldl (stepHiOdd (supportExtra k)) st.2) := by
  induction ps generalizing st with
  | nil =>
    cases st
    rfl
  | cons p ps ih =>
    rw [List.foldl_cons, List.map_cons, List.foldl_cons, List.foldl_cons, ih]
    have hax : axisUpdate k p st =
        (stepLoOdd (supportExtra k) st.1 (rsRound p),
          stepHiOdd (supportExtra k) st.2 (rsRound p)) := by
      unfold axisUpdate
      rw [if_neg]
      omega
    rw [hax]

theorem preClipAxis_odd (m : Mat4) (outExt : Fin 3 → ℤ × ℤ) (support : Fin 3 → ℕ)
    (j : Fin 3) (hodd : support j % 2 = 1) :
    preClipAxis m outExt support j =
      ((cornerRounds m outExt j).foldl (stepLoOdd (supportExtra (support j))) VTK_INT_MAX,
        (cornerRounds m outExt j).foldl (stepHiOdd (supportExtra (support j))) VTK_INT_MIN) := by
  unfold preClipAxis
  rw [axisUpdate_fold_odd (support j) hodd]
  unfold cornerRounds
  rw [List.map_map]
  rfl

theorem foldl_stepLo_le (e : ℤ) (he : 0 ≤ e) (l : List ℤ) (a : ℤ) :
    l.foldl (stepLoOdd e) a ≤ a ∧ ∀ k ∈ l, l.foldl (stepLoOdd e) a ≤ k := by
  induction l generalizing a with
  | nil => simp
  | cons x xs ih =>
    rw [List.foldl_cons]
    have hstep : stepLoOdd e a x ≤ a ∧ stepLoOdd e a x ≤ x := by
      unfold stepLoOdd
      split_ifs <;> omega
    rcases ih (stepLoOdd e a x) with ⟨h1, h2⟩
    refine ⟨le_trans h1 hstep.1, ?_⟩
    intro k hk
    rcases List.mem_cons.mp hk with hk | hk
    · rw [hk]
      exact le_trans h1 hstep.2
    · exact h2 k hk

theorem foldl_stepLo_mem (e : ℤ) (l : List ℤ) (a : ℤ) :
    l.foldl (stepLoOdd e) a = a ∨ ∃ k ∈ l, l.foldl (stepLoOdd e) a = k - e := by
  induction l generalizing a with
  | nil => simp
  | cons x xs ih =>
    rw [List.foldl_cons]
    rcases ih (stepLoOdd e a x) with h | ⟨k, hk, h⟩
    · rw [h]
      unfold stepLoOdd
      split_ifs
      · exact Or.inr ⟨x, List.mem_cons_self x xs, rfl⟩
      · exact Or.inl rfl
    · exact Or.inr ⟨k, List.mem_cons_of_mem x hk, h⟩

theorem foldl_stepHi_ge (e : ℤ) (he : 0 ≤ e) (l : List ℤ) (a : ℤ) :
    a ≤ l.foldl (stepHiOdd e) a ∧ ∀ k ∈ l, k ≤ l.foldl (stepHiOdd e) a := by
  induction l generalizing a with
  | nil => simp
  | cons x xs ih =>
    rw [List.foldl_cons]
    have hstep : a ≤ stepHiOdd e a x ∧ x ≤ stepHiOdd e a x := by
      unfold stepHiOdd
      split_ifs <;> omega
    rcases ih (stepHiOdd e a x) with ⟨h1, h2⟩
    refine ⟨le_trans hstep.1 h1, ?_⟩
    intro k hk
    rcases List.mem_cons.mp hk with hk | hk
    · rw [hk]
      exact le_trans hstep.2 h1
    · exact h2 k hk

theorem foldl_stepHi_mem (e : ℤ) (l : List ℤ) (a : ℤ) :
    l.foldl (stepHiOdd e) a = a ∨ ∃ k ∈ l, l.foldl (stepHiOdd e) a = k + e := by
  induction l generalizing a with
  | nil => simp
  | cons x xs ih =>
    rw [List.foldl_cons]
    rcases ih (stepHiOdd e a x) with h | ⟨k, hk, h⟩
    · rw [h]
      unfold stepHiOdd
      split_ifs
      · exact Or.inr ⟨x, List.mem_cons_self x xs, rfl⟩
      · exact Or.inl rfl
    · exact Or.inr ⟨k, List.mem_cons_of_mem x hk, h⟩

theorem foldl_min_le_init (l : List ℤ) (a : ℤ) : l.foldl min a ≤ a := by
  induction l generalizing a with
  | nil => simp
  | cons x xs ih =>
    rw [List.foldl_cons]
    exact le_trans (ih (min a x)) (min_le_left a x)

theorem le_foldl_max_init (l : List ℤ) (a : ℤ) : a ≤ l.foldl max a := by
  induction l generalizing a with
  | nil => simp
  | cons x xs ih =>
    rw [List.foldl_cons]
    exact le_trans (le_max_left a x) (ih (max a x))

theorem foldl_min_le_mem (l : List ℤ) (a : ℤ) : ∀ k ∈ l, l.foldl min a ≤ k := by
  induction l generalizing a with
  | nil => simp
  | cons x xs ih =>
    intro k hk
    rw [List.foldl_cons]
    rcases List.mem_cons.mp hk with hk | hk
    · rw [hk]
      exact le_trans (foldl_min_le_init xs (min a x)) (min_le_right a x)
    · exact ih (min a x) k hk

theorem foldl_max_ge_mem (l : List ℤ) (a : ℤ) : ∀ k ∈ l, k ≤ l.foldl max a := by
  induction l generalizing a with
  | nil => simp
  | cons x xs ih =>
    intro k hk
    rw [List.foldl_cons]
    rcases List.mem_cons.mp hk with hk | hk
    · rw [hk]
      exact le_trans (le_max_right a x) (le_foldl_max_init xs (max a x))
    · exact ih (max a x) k hk

/-- Concrete index matrix for the C5 counterexample: x-axis scale `3/5`,
x translation `22/5`, other axes identity. -/
def m5 : Mat4 :=
  ![![3 / 5, 0, 0, 22 / 5], ![0, 1, 0, 0], ![0, 0, 1, 0], ![0, 0, 0, 1]]

/-- Output request extent for the C5 counterexample: x in `[0, 1]`, y and z
degenerate. -/
def out5 : Fin 3 → ℤ × ℤ := ![(0, 1), (0, 0), (0, 0)]

/-- Kernel support 3 (odd) on every axis for the C5 counterexample. -/
def support5 : Fin 3 → ℕ := fun _ => 3

theorem c5_rounds : cornerRounds m5 (slabAdjustExtent out5 1) 0 = [4, 5, 4, 5, 4, 5, 4, 5] := by
  have hr : List.range 8 = [0, 1, 2, 3, 4, 5, 6, 7] := rfl
  unfold cornerRounds
  rw [hr]
  norm_num [perspPoint, mapPoint, cornerIndex, m5, out5, slabAdjustExtent, rsRound,
    castSucc_zero3, castSucc_one3, castSucc_two3, Matrix.vecHead, Matrix.vecTail]

/-- Counterexample for claim C5 as stated: with an odd kernel support of 3
(`extra = 1`) and corner positions `4.4` and `5.0` on the x axis, the corner
rounding to 5 does not strictly pass the running bounds set by the corner
rounding to 4, so the scan yields `[3, 5]` while the union of the
per-corner intervals is `[3, 6]`. -/
theorem claim_C5_counterexample :
    support5 0 % 2 = 1 ∧
      preClipAxis m5 (slabAdjustExtent out5 1) support5 0 ≠
        unionAxis m5 (slabAdjustExtent out5 1) support5 0 := by
  refine ⟨by decide, ?_⟩
  have hp : preClipAxis m5 (slabAdjustExtent out5 1) support5 0 = (3, 5) := by
    rw [preClipAxis_odd m5 _ support5 0 (by decide), c5_rounds]
    decide
  have hu : unionAxis m5 (slabAdjustExtent out5 1) support5 0 = (3, 6) := by
    unfold unionAxis
    rw [c5_rounds]
    decide
  rw [hp, hu]
  decide

/-- Claim C5 (amended): in the update-extent pre-pass, for every axis whose
kernel support is odd, the input interval computed before clipping contains
every rounded corner position, each of its endpoints equals
`round(p_j) ∓ (k_j - 1)/2` for some corner `p`, and the whole interval is
contained in the union of the per-corner intervals — but it can be strictly
smaller than that union, because a corner widens a bound only when its
rounded position strictly passes the current bound. -/
theorem claim_C5_amended_bounds (m : Mat4) (outExt : Fin 3 → ℤ × ℤ)
    (support : Fin 3 → ℕ) (ns : ℕ) (j : Fin 3) (hodd : support j % 2 = 1)
    (hb : ∀ k ∈ cornerRounds m (slabAdjustExtent outExt ns) j,
      k < VTK_INT_MAX ∧ VTK_INT_MIN < k) :
    (∀ k ∈ cornerRounds m (slabAdjustExtent outExt ns) j,
        (preClipAxis m (slabAdjustExtent outExt ns) support j).1 ≤ k ∧
          k ≤ (preClipAxis m (slabAdjustExtent outExt ns) support j).2) ∧
      (∃ k ∈ cornerRounds m (slabAdjustExtent outExt ns) j,
        (preClipAxis m (slabAdjustExtent outExt ns) support j).1 =
          k - supportExtra (support j)) ∧
      (∃ k ∈ cornerRounds m (slabAdjustExtent outExt ns) j,
        (preClipAxis m (slabAdjustExtent outExt ns) support j).2 =
          k + supportExtra (support j)) ∧
      (unionAxis m (slabAdjustExtent outExt ns) support j).1 ≤
          (preClipAxis m (slabAdjustExtent outExt ns) support j).1 ∧
        (preClipAxis m (slabAdjustExtent outExt ns) support j).2 ≤
          (unionAxis m (slabAdjustExtent outExt ns) support j).2 := by
  have hk1 : 1 ≤ support j := by omega
  have he : 0 ≤ supportExtra (support j) := by
    unfold supportExtra
    have h2 : 1 ≤ (support j + 1) / 2 := by omega
    omega
  rw [preClipAxis_odd m (slabAdjustExtent outExt ns) support j hodd]
  set ks := cornerRounds m (slabAdjustExtent outExt ns) j with hks
  have hmem0 : rsRound (perspPoint m (cornerIndex (slabAdjustExtent outExt ns) 0) j) ∈ ks := by
    rw [hks]
    unfold cornerRounds
    exact List.mem_map.mpr ⟨0, List.mem_range.mpr (by norm_num), rfl⟩
  have hlo_le := foldl_stepLo_le (supportExtra (support j)) he ks VTK_INT_MAX
  have hhi_ge := foldl_stepHi_ge (supportExtra (support j)) he ks VTK_INT_MIN
  have hlo_mem : ∃ k ∈ ks,
      ks.foldl (stepLoOdd (supportExtra (support j))) VTK_INT_MAX =
        k - supportExtra (support j) := by
    rcases foldl_stepLo_mem (supportExtra (support j)) ks VTK_INT_MAX with h | h
    · exfalso
      have h1 := hlo_le.2 _ hmem0
      have h2 := (hb _ hmem0).1
      omega
    · exact h
  have hhi_mem : ∃ k ∈ ks,
      ks.foldl (stepHiOdd (supportExtra (support j))) VTK_INT_MIN =
        k + supportExtra (support j) := by
    rcases foldl_stepHi_mem (supportExtra (support j)) ks VTK_INT_MIN with h | h
    · exfalso
      have h1 := hhi_ge.2 _ hmem0
      have h2 := (hb _ hmem0).2
      omega
    · exact h
  refine ⟨?_, hlo_mem, hhi_mem, ?_, ?_⟩
  · intro k hk
    exact ⟨hlo_le.2 k hk, hhi_ge.2 k hk⟩
  · rcases hlo_mem with ⟨k, hk, hkeq⟩
    have hmin := foldl_min_le_mem ks VTK_INT_MAX k hk
    have hgoal : (unionAxis m (slabAdjustExtent outExt ns) support j).1 =
        ks.foldl min VTK_INT_MAX - supportExtra (support j) := by
      rw [hks]
      rfl
    rw [hgoal, hkeq]
    omega
  · rcases hhi_mem with ⟨k, hk, hkeq⟩
    have hmax := foldl_max_ge_mem ks VTK_INT_MIN k hk
    have hgoal : (unionAxis m (slabAdjustExtent outExt ns) support j).2 =
        ks.foldl max VTK_INT_MIN + supportExtra (support j) := by
      rw [hks]
      rfl
    rw [hgoal, hkeq]
    omega

/-- Witness for the amended claim C5 at the concrete counterexample
instance. -/
theorem claim_C5_amended_witness :
    (support5 0 % 2 = 1 ∧
        ∀ k ∈ cornerRounds m5 (slabAdjustExtent out5 1) 0,
          k < VTK_INT_MAX ∧ VTK_INT_MIN < k) ∧
      ((∀ k ∈ cornerRounds m5 (slabAdjustExtent out5 1) 0,
          (preClipAxis m5 (slabAdjustExtent out5 1) support5 0).1 ≤ k ∧
            k ≤ (preClipAxis m5 (slabAdjustExtent out5 1) support5 0).2) ∧
        (∃ k ∈ cornerRounds m5 (slabAdjustExtent out5 1) 0,
          (preClipAxis m5 (slabAdjustExtent out5 1) support5 0).1 =
            k - supportExtra (support5 0)) ∧
        (∃ k ∈ cornerRounds m5 (slabAdjustExtent out5 1) 0,
          (preClipAxis m5 (slabAdjustExtent out5 1) support5 0).2 =
            k + supportExtra (support5 0)) ∧
        (unionAxis m5 (slabAdjustExtent out5 1) support5 0).1 ≤
            (preClipAxis m5 (slabAdjustExtent out5 1) support5 0).1 ∧
          (preClipAxis m5 (slabAdjustExtent out5 1) support5 0).2 ≤
            (unionAxis m5 (slabAdjustExtent out5 1) support5 0).2) :=
  ⟨⟨by decide, by rw [c5_rounds]; decide⟩,
    claim_C5_amended_bounds m5 out5 support5 1 0 (by decide)
      (by rw [c5_rounds]; decide)⟩

/-! Clipping of the computed input interval to the whole extent, and the
`HitInputExtent` flag (`RequestUpdateExtent`, source lines 713-752). -/

/-- First clipping pass for one axis: raise the lower bound to the whole
extent's lower bound; under wrap also widen the upper bound, otherwise
detect a complete miss below the whole extent.  Returns the clipped bounds
and whether `HitInputExtent` was cleared. -/
def clipPass1 (wrap : Bool) (wlo whi lo hi : ℤ) : (ℤ × ℤ) × Bool :=
  if lo < wlo then
    if wrap then ((wlo, whi), false)
    else if hi < wlo then ((wlo, wlo), true)
    else ((wlo, hi), false)
  else ((lo, hi), false)

/-- Second clipping pass for one axis: lower the upper bound to the whole
extent's upper bound; under wrap also widen the lower bound, otherwise
detect a complete miss above the whole extent (with the final guard against
a null whole extent). -/
def clipPass2 (wrap : Bool) (wlo whi : ℤ) (st : (ℤ × ℤ) × Bool) : (ℤ × ℤ) × Bool :=
  if whi < st.1.2 then
    if wrap then ((wlo, whi), st.2)
    else if whi < st.1.1 then (((if whi < wlo then wlo else whi), whi), true)
    else ((st.1.1, whi), st.2)
  else st

/-- Both clipping passes for one axis, as executed by the per-axis loop of
`RequestUpdateExtent`. -/
def clipAxisPair (wrap : Bool) (wlo whi lo hi : ℤ) : (ℤ × ℤ) × Bool :=
  clipPass2 wrap wlo whi (clipPass1 wrap wlo whi lo hi)

/-- The full clipping step over the three axes: the clipped input update
extent together with the retained `HitInputExtent` flag (which is 1 unless
some axis cleared it). -/
def clipUpdateExtent (wrap : Bool) (whole pre : Fin 3 → ℤ × ℤ) : (Fin 3 → ℤ × ℤ) × Bool :=
  (fun k => (clipAxisPair wrap (whole k).1 (whole k).2 (pre k).1 (pre k).2).1,
    !decide (∃ k : Fin 3, (clipAxisPair wrap (whole k).1 (whole k).2 (pre k).1 (pre k).2).2 = true))

/-- The three execution paths that `ThreadedRequestData` dispatches to. -/
inductive ExecPath where
  | clear | permute | general
  deriving DecidableEq, Repr

/-- Path selection of `vtkImageReslice::ThreadedRequestData`: a cleared
`HitInputExtent` routes every tile to `vtkImageResliceClearExecute`,
otherwise `UsePermuteExecute` picks the fast path. -/
def threadedDispatch (hitInputExtent : Bool) (usePermuteExecute : Bool) : ExecPath :=
  if hitInputExtent = false then ExecPath.clear
  else if usePermuteExecute then ExecPath.permute
  else ExecPath.general

/-- Component `j` of the value written to an output voxel by the dispatched
path: `vtkImageResliceClearExecute` writes the background pixel into every
voxel of its tile, and the sampling paths write whatever value they
compute (abstracted here as `sampledValue`). -/
def threadedVoxelComp (hitInputExtent usePermuteExecute : Bool) (dcolor : ℕ → ℚ)
    (scalarType : VTKType) (numComponents : ℕ) (sampledValue : ℕ → ℚ) (j : ℕ) : ℚ :=
  match threadedDispatch hitInputExtent usePermuteExecute with
  | ExecPath.clear => backgroundComp dcolor scalarType numComponents j
  | ExecPath.permute => sampledValue j
  | ExecPath.general => sampledValue j

theorem clipAxisPair_props (wrap : Bool) (wlo whi lo hi : ℤ) (hw : wlo ≤ whi)
    (hp : lo ≤ hi) :
    ((clipAxisPair wrap wlo whi lo hi).2 = true → hi < wlo ∨ whi < lo) ∧
      ((clipAxisPair wrap wlo whi lo hi).2 = true →
        (clipAxisPair wrap wlo whi lo hi).1.1 = (clipAxisPair wrap wlo whi lo hi).1.2) ∧
      (clipAxisPair wrap wlo whi lo hi).1.1 ≤ (clipAxisPair wrap wlo whi lo hi).1.2 := by
  unfold clipAxisPair clipPass2 clipPass1
  split_ifs <;> simp_all <;> omega

/-- Claim C2: the update-extent clipping clears `HitInputExtent` only when
on some axis the computed input interval lies entirely outside the input
whole extent; the retained per-axis extents are never inverted and are
degenerate on every axis that detected a miss; and with the flag cleared
the dispatched path writes the background pixel into every output voxel
component regardless of what the sampling paths would have produced. -/
theorem claim_C2_hit_input_extent (wrap : Bool) (whole pre : Fin 3 → ℤ × ℤ)
    (hw : ∀ k, (whole k).1 ≤ (whole k).2) (hp : ∀ k, (pre k).1 ≤ (pre k).2) :
    ((clipUpdateExtent wrap whole pre).2 = false →
        ∃ k, (pre k).2 < (whole k).1 ∨ (whole k).2 < (pre k).1) ∧
      (∀ k, ((clipUpdateExtent wrap whole pre).1 k).1 ≤
          ((clipUpdateExtent wrap whole pre).1 k).2 ∧
        ((clipAxisPair wrap (whole k).1 (whole k).2 (pre k).1 (pre k).2).2 = true →
          ((clipUpdateExtent wrap whole pre).1 k).1 =
            ((clipUpdateExtent wrap whole pre).1 k).2)) ∧
      ((clipUpdateExtent wrap whole pre).2 = false →
        ∀ (usePermuteExecute : Bool) (dcolor : ℕ → ℚ) (scalarType : VTKType)
          (numComponents : ℕ) (sampledValue : ℕ → ℚ) (j : ℕ),
          threadedVoxelComp (clipUpdateExtent wrap whole pre).2 usePermuteExecute dcolor
              scalarType numComponents sampledValue j =
            backgroundComp dcolor scalarType numComponents j) := by
  refine ⟨?_, ?_, ?_⟩
  · intro hfalse
    have hex : ∃ k : Fin 3,
        (clipAxisPair wrap (whole k).1 (whole k).2 (pre k).1 (pre k).2).2 = true := by
      by_contra hno
      have : (clipUpdateExtent wrap whole pre).2 = true := by
        unfold clipUpdateExtent
        simp only [Bool.not_eq_true']
        rw [decide_eq_false hno]
      rw [hfalse] at this
      exact Bool.noConfusion this
    rcases hex with ⟨k, hk⟩
    exact ⟨k, (clipAxisPair_props wrap (whole k).1 (whole k).2 (pre k).1 (pre k).2
      (hw k) (hp k)).1 hk⟩
  · intro k
    have h := clipAxisPair_props wrap (whole k).1 (whole k).2 (pre k).1 (pre k).2
      (hw k) (hp k)
    exact ⟨h.2.2, fun hm => h.2.1 hm⟩
  · intro hfalse _ _ _ _ _ _
    rw [hfalse]
    rfl

/-- Witness for claim C2: whole extent `[0, 4]` on every axis, computed
x interval `[6, 8]` (a miss above), y and z intervals `[1, 2]`; the flag is
cleared, the x extent degenerates to `[4, 4]`, and the dispatch writes the
background. -/
theorem claim_C2_witness :
    ((∀ k : Fin 3, ((![((0 : ℤ), (4 : ℤ)), (0, 4), (0, 4)]) k).1 ≤
          ((![((0 : ℤ), (4 : ℤ)), (0, 4), (0, 4)]) k).2) ∧
        (∀ k : Fin 3, ((![((6 : ℤ), (8 : ℤ)), (1, 2), (1, 2)]) k).1 ≤
          ((![((6 : ℤ), (8 : ℤ)), (1, 2), (1, 2)]) k).2)) ∧
      ((clipUpdateExtent false ![(0, 4), (0, 4), (0, 4)] ![(6, 8), (1, 2), (1, 2)]).2 = false →
        ∃ k, ((![((6 : ℤ), (8 : ℤ)), (1, 2), (1, 2)]) k).2 <
              ((![((0 : ℤ), (4 : ℤ)), (0, 4), (0, 4)]) k).1 ∨
            ((![((0 : ℤ), (4 : ℤ)), (0, 4), (0, 4)]) k).2 <
              ((![((6 : ℤ), (8 : ℤ)), (1, 2), (1, 2)]) k).1) ∧
      (clipUpdateExtent false ![(0, 4), (0, 4), (0, 4)] ![(6, 8), (1, 2), (1, 2)]).2 = false ∧
      ((clipUpdateExtent false ![(0, 4), (0, 4), (0, 4)] ![(6, 8), (1, 2), (1, 2)]).1 0).1 =
        ((clipUpdateExtent false ![(0, 4), (0, 4), (0, 4)] ![(6, 8), (1, 2), (1, 2)]).1 0).2 :=
  ⟨⟨by decide, by decide⟩,
    (claim_C2_hit_input_extent false ![(0, 4), (0, 4), (0, 4)] ![(6, 8), (1, 2), (1, 2)]
        (by decide) (by decide)).1,
    by decide, by decide⟩

/-! Output spacing derivation (`vtkImageReslice::RequestInformation`,
source lines 1063-1125). -/

/-- 3x3 matrices, row then column (matching the row-major `double[9]`
arrays of the source). -/
abbrev Mat3 : Type := Fin 3 → Fin 3 → ℚ

/-- `vtkMatrix3x3::Multiply3x3`: standard row-by-column product. -/
def mul3 (A B : Mat3) : Mat3 := fun i j =>
  A i 0 * B 0 j + A i 1 * B 1 j + A i 2 * B 2 j

/-- Determinant of a 3x3 matrix, by cofactor expansion along the first
row. -/
def det3 (A : Mat3) : ℚ :=
  A 0 0 * (A 1 1 * A 2 2 - A 1 2 * A 2 1) - A 0 1 * (A 1 0 * A 2 2 - A 1 2 * A 2 0) +
    A 0 2 * (A 1 0 * A 2 1 - A 1 1 * A 2 0)

/-- `vtkMatrix3x3::Invert`: the adjugate divided by the determinant. -/
def inv3 (A : Mat3) : Mat3 := fun i j =>
  (1 / det3 A) *
    (![![A 1 1 * A 2 2 - A 1 2 * A 2 1, A 0 2 * A 2 1 - A 0 1 * A 2 2,
          A 0 1 * A 1 2 - A 0 2 * A 1 1],
        ![A 1 2 * A 2 0 - A 1 0 * A 2 2, A 0 0 * A 2 2 - A 0 2 * A 2 0,
          A 0 2 * A 1 0 - A 0 0 * A 1 2],
        ![A 1 0 * A 2 1 - A 1 1 * A 2 0, A 0 1 * A 2 0 - A 0 0 * A 2 1,
          A 0 0 * A 1 1 - A 0 1 * A 1 0]] i j)

/-- The rotation matrix computed by `RequestInformation` when
`TransformInputSampling` is on: initialized with the output direction,
premultiplied by the reslice rotation when reslice axes are set, then
premultiplied by the inverse input direction — that is,
`inv(inDirection) * resliceRotation * outDirection`. -/
def rotationSource (inDirection outDirection : Mat3) (resliceRotation : Option Mat3) : Mat3 :=
  mul3 (inv3 inDirection)
    (match resliceRotation with
    | none => outDirection
    | some r => mul3 r outDirection)

/-- The rotation matrix as described by the claim:
`inv(input_direction) * output_direction * reslice_rotation`. -/
def rotationClaim (inDirection outDirection : Mat3) (resliceRotation : Option Mat3) : Mat3 :=
  mul3 (inv3 inDirection)
    (match resliceRotation with
    | none => outDirection
    | some r => mul3 outDirection r)

/-- The per-axis spacing accumulation of the source loop: with
`tmp = rotation[3j+i]^2`, accumulate `s += tmp * |inSpacing j|` and
`r += tmp` over `j = 0, 1, 2`, then return `s / r`. -/
def spacingFromRotation (rot : Mat3) (inSpacing : Fin 3 → ℚ) (i : Fin 3) : ℚ :=
  (rot 0 i ^ 2 * |inSpacing 0| + rot 1 i ^ 2 * |inSpacing 1| +
      rot 2 i ^ 2 * |inSpacing 2|) /
    (rot 0 i ^ 2 + rot 1 i ^ 2 + rot 2 i ^ 2)

/-- Output spacing derived by the source for axis `i`, when the spacing is
not user-fixed and `TransformInputSampling` is on. -/
def outputSpacingSource (inDirection outDirection : Mat3) (resliceRotation : Option Mat3)
    (inSpacing : Fin 3 → ℚ) (i : Fin 3) : ℚ :=
  spacingFromRotation (rotationSource inDirection outDirection resliceRotation) inSpacing i

/-- Output spacing as the claim states it, with the claim's rotation
`inv(input_direction) * output_direction * reslice_rotation`. -/
def outputSpacingClaim (inDirection outDirection : Mat3) (resliceRotation : Option Mat3)
    (inSpacing : Fin 3 → ℚ) (i : Fin 3) : ℚ :=
  spacingFromRotation (rotationClaim inDirection outDirection resliceRotation) inSpacing i

/-- The claim's spacing formula written with explicit sums, for the amended
rotation `inv(input_direction) * reslice_rotation * output_direction`. -/
def spacingFormula (rot : Mat3) (inSpacing : Fin 3 → ℚ) (i : Fin 3) : ℚ :=
  (∑ j : Fin 3, rot j i ^ 2 * |inSpacing j|) / ∑ j : Fin 3, rot j i ^ 2

/-- The identity 3x3 matrix. -/
def id3 : Mat3 := ![![1, 0, 0], ![0, 1, 0], ![0, 0, 1]]

/-- Output direction for the C3 counterexample: swap of the y and z axes. -/
def c3OutDir : Mat3 := ![![1, 0, 0], ![0, 0, 1], ![0, 1, 0]]

/-- Reslice rotation for the C3 counterexample: swap of the x and y axes. -/
def c3ResRot : Mat3 := ![![0, 1, 0], ![1, 0, 0], ![0, 0, 1]]

/-- Input spacing `(1, 2, 3)` for the C3 counterexample. -/
def c3Spacing : Fin 3 → ℚ := ![1, 2, 3]

/-- Counterexample for claim C3 as stated: with identity input direction,
output direction swapping y and z, and reslice rotation swapping x and y,
the source computes `inv(inDir) * resliceRot * outDir` and derives output
spacing 2 on axis 0, while the claim's rotation order
`inv(inDir) * outDir * resliceRot` would give 3. -/
theorem claim_C3_counterexample :
    outputSpacingSource id3 c3OutDir (some c3ResRot) c3Spacing 0 ≠
      outputSpacingClaim id3 c3OutDir (some c3ResRot) c3Spacing 0 := by
  norm_num [outputSpacingSource, outputSpacingClaim, rotationSource, rotationClaim,
    spacingFromRotation, mul3, inv3, det3, id3, c3OutDir, c3ResRot, c3Spacing,
    Matrix.vecHead, Matrix.vecTail]

theorem mul3_assoc (A B C : Mat3) : mul3 (mul3 A B) C = mul3 A (mul3 B C) := by
  funext i j
  unfold mul3
  ring

/-- Claim C3 (amended): when output spacing is not user-fixed and
`TransformInputSampling` is on, the derived output spacing for axis `i` is
`(Σ_j r_j * |input_spacing_j|) / (Σ_j r_j)` with `r_j = R[j, i]^2` — where
`R` is the rotation `inv(input_direction) * reslice_rotation *
output_direction` (the reslice rotation is applied between the inverse
input direction and the output direction, not after the output
direction). -/
theorem claim_C3_spacing_amended (inDirection outDirection : Mat3)
    (resliceRotation : Option Mat3) (inSpacing : Fin 3 → ℚ) (i : Fin 3) :
    outputSpacingSource inDirection outDirection resliceRotation inSpacing i =
      spacingFormula
        (match resliceRotation with
        | none => mul3 (inv3 inDirection) outDirection
        | some r => mul3 (mul3 (inv3 inDirection) r) outDirection)
        inSpacing i := by
  cases resliceRotation with
  | none =>
    unfold outputSpacingSource rotationSource spacingFormula spacingFromRotation
    dsimp only
    rw [Fin.sum_univ_three, Fin.sum_univ_three]
  | some r =>
    unfold outputSpacingSource rotationSource spacingFormula spacingFromRotation
    dsimp only
    rw [Fin.sum_univ_three, Fin.sum_univ_three, mul3_assoc]

/-! Permute fast path selection (`vtkIsPermutationMatrix` and
`vtkImageReslice::RequestInformationBase`, source lines 905-934 and
1289-1303). -/

/-- Number of non-zero entries among the first three rows of column `j`
(the inner loop of `vtkIsPermutationMatrix`). -/
def colNZ (m : Mat4) (j : Fin 4) : ℕ :=
  (if m 0 j ≠ 0 then 1 else 0) + (if m 1 j ≠ 0 then 1 else 0) + (if m 2 j ≠ 0 then 1 else 0)

/-- Number of non-zero entries among the first three columns of row `i`
(not checked by the source; part of the claim's characterization). -/
def rowNZ (m : Mat4) (i : Fin 4) : ℕ :=
  (if m i 0 ≠ 0 then 1 else 0) + (if m i 1 ≠ 0 then 1 else 0) + (if m i 2 ≠ 0 then 1 else 0)

/-- `vtkIsPermutationMatrix`: the bottom row must be `(0, 0, 0, 1)` and
every one of the first three columns must have exactly one non-zero entry
in its first three rows.  No per-row condition is checked. -/
def vtkIsPermutationMatrix (m : Mat4) : Bool :=
  decide (m 3 0 = 0) && decide (m 3 1 = 0) && decide (m 3 2 = 0) && decide (m 3 3 = 1) &&
    (colNZ m 0 == 1 && (colNZ m 1 == 1 && colNZ m 2 == 1))

/-- The `UsePermuteExecute` computation of `RequestInformationBase`: zero
unless optimization is on and the residual-transform, slab-spacing,
separability and permutation-matrix conditions all hold. -/
def usePermuteExecute (optimization hasOptimizedTransform : Bool)
    (slabSliceSpacingFraction : ℚ) (separable : Bool) (m : Mat4) : Bool :=
  optimization &&
    (!hasOptimizedTransform &&
      (decide (slabSliceSpacingFraction = 1) && (separable && vtkIsPermutationMatrix m)))

/-- Determinant of the upper-left 3x3 submatrix of a 4x4 matrix. -/
def det3of4 (m : Mat4) : ℚ :=
  m 0 0 * (m 1 1 * m 2 2 - m 1 2 * m 2 1) - m 0 1 * (m 1 0 * m 2 2 - m 1 2 * m 2 0) +
    m 0 2 * (m 1 0 * m 2 1 - m 1 1 * m 2 0)

theorem det3of4_row_zero (m : Mat4) (i : Fin 4) (hi : i = 0 ∨ i = 1 ∨ i = 2)
    (h0 : m i 0 = 0) (h1 : m i 1 = 0) (h2 : m i 2 = 0) : det3of4 m = 0 := by
  unfold det3of4
  rcases hi with hi | hi | hi <;> subst hi <;> rw [h0, h1, h2] <;> ring

theorem rowNZ_eq_zero_entries (m : Mat4) (i : Fin 4) (h : rowNZ m i = 0) :
    m i 0 = 0 ∧ m i 1 = 0 ∧ m i 2 = 0 := by
  unfold rowNZ at h
  by_cases h0 : m i 0 = 0 <;> by_cases h1 : m i 1 = 0 <;> by_cases h2 : m i 2 = 0 <;>
    simp [h0, h1, h2] at h ⊢

theorem count_swap (m : Mat4) :
    colNZ m 0 + colNZ m 1 + colNZ m 2 = rowNZ m 0 + rowNZ m 1 + rowNZ m 2 := by
  unfold colNZ rowNZ
  ring

theorem rowNZ_pos_of_det (m : Mat4) (hdet : det3of4 m ≠ 0) (i : Fin 4)
    (hi : i = 0 ∨ i = 1 ∨ i = 2) : 1 ≤ rowNZ m i := by
  by_contra h
  push_neg at h
  interval_cases h' : rowNZ m i
  rcases rowNZ_eq_zero_entries m i h' with ⟨h0, h1, h2⟩
  exact hdet (det3of4_row_zero m i hi h0 h1 h2)

/-- Claim C4: when the upper-left 3x3 submatrix is non-singular (which
holds for every index matrix the pipeline can build), `UsePermuteExecute`
is 1 exactly when optimization is on, there is no residual nonlinear
transform, the slab slice spacing fraction is 1, the interpolator is
separable, the bottom row is `(0, 0, 0, 1)`, and the upper-left 3x3
submatrix has exactly one non-zero entry per row and per column.  (The
source checks only the per-column condition; the per-row condition follows
from non-singularity.) -/
theorem claim_C4_permute_selection (optimization hasOptimizedTransform separable : Bool)
    (slabSliceSpacingFraction : ℚ) (m : Mat4) (hdet : det3of4 m ≠ 0) :
    usePermuteExecute optimization hasOptimizedTransform slabSliceSpacingFraction
        separable m = true ↔
      optimization = true ∧ hasOptimizedTransform = false ∧
        slabSliceSpacingFraction = 1 ∧ separable = true ∧
        (m 3 0 = 0 ∧ m 3 1 = 0 ∧ m 3 2 = 0 ∧ m 3 3 = 1) ∧
        (rowNZ m 0 = 1 ∧ rowNZ m 1 = 1 ∧ rowNZ m 2 = 1) ∧
        (colNZ m 0 = 1 ∧ colNZ m 1 = 1 ∧ colNZ m 2 = 1) := by
  unfold usePermuteExecute vtkIsPermutationMatrix
  simp only [Bool.and_eq_true, Bool.not_eq_true', decide_eq_true_eq, beq_iff_eq]
  constructor
  · rintro ⟨ho, hno, hfrac, hsep, ⟨⟨⟨⟨hb0, hb1⟩, hb2⟩, hb3⟩, hc0, hc1, hc2⟩⟩
    have hsum : rowNZ m 0 + rowNZ m 1 + rowNZ m 2 = 3 := by
      rw [← count_swap, hc0, hc1, hc2]
    have hr0 := rowNZ_pos_of_det m hdet 0 (Or.inl rfl)
    have hr1 := rowNZ_pos_of_det m hdet 1 (Or.inr (Or.inl rfl))
    have hr2 := rowNZ_pos_of_det m hdet 2 (Or.inr (Or.inr rfl))
    exact ⟨ho, hno, hfrac, hsep, ⟨hb0, hb1, hb2, hb3⟩,
      ⟨by omega, by omega, by omega⟩, hc0, hc1, hc2⟩
  · rintro ⟨ho, hno, hfrac, hsep, ⟨hb0, hb1, hb2, hb3⟩, -, hc0, hc1, hc2⟩
    exact ⟨ho, hno, hfrac, hsep, ⟨⟨⟨⟨hb0, hb1⟩, hb2⟩, hb3⟩, hc0, hc1, hc2⟩⟩

/-- Identity 4x4 matrix, the witness instance for claim C4. -/
def idM4 : Mat4 := ![![1, 0, 0, 0], ![0, 1, 0, 0], ![0, 0, 1, 0], ![0, 0, 0, 1]]

/-- Witness for claim C4 at the identity index matrix with all the
configuration switches in the eligible position. -/
theorem claim_C4_witness :
    det3of4 idM4 ≠ 0 ∧ usePermuteExecute true false 1 true idM4 = true :=
  ⟨by norm_num [det3of4, idM4, Matrix.vecHead, Matrix.vecTail],
    (claim_C4_permute_selection true false true 1 idM4
        (by norm_num [det3of4, idM4, Matrix.vecHead, Matrix.vecTail])).mpr
      ⟨rfl, rfl, rfl, rfl,
        by norm_num [idM4, Matrix.vecHead, Matrix.vecTail],
        by norm_num [rowNZ, idM4, Matrix.vecHead, Matrix.vecTail],
        by norm_num [colNZ, idM4, Matrix.vecHead, Matrix.vecTail]⟩⟩

/-! Execution paths (`vtkImageResliceExecute` and
`vtkReslicePermuteExecute`).  The embedding models one scalar component,
the nearest-neighbor kernel of `vtkImageInterpolator` (the interpolator
implementation is not part of the repository snapshot and is modelled from
the spec), clamp border mode, no input stencil, and no subclass scalar
conversion.  Both loops write every output voxel exactly once, so each
path is embedded as the per-voxel value it stores. -/

/-- A 3D single-component image: per-axis extent and a value at every
integer index triple. -/
structure RImage where
  ext : Fin 3 → ℤ × ℤ
  val : (Fin 3 → ℤ) → ℚ

/-- Reslice parameters shared by both execution paths. -/
structure RCfg where
  img : RImage
  inType : VTKType
  outType : VTKType
  bgColor : ℚ
  tol : ℚ
  scalarShift : ℚ
  scalarScale : ℚ
  slabNumberOfSlices : ℕ
  slabMode : SlabMode
  trapezoid : Bool
  slabFrac : ℚ
  borderFlag : Bool

/-- Effective sample count: `nsamples = (nsamples > 1 ? nsamples : 1)`. -/
def nsEff (cfg : RCfg) : ℕ := max cfg.slabNumberOfSlices 1

/-- `rescaleScalars = (scalarShift != 0.0 || scalarScale != 1.0)`. -/
def rescaleOn (cfg : RCfg) : Bool :=
  decide (cfg.scalarShift ≠ 0) || decide (cfg.scalarScale ≠ 1)

/-- `vtkImageResliceRescaleScalars`: `(v + shift) * scale`, applied only
when rescaling is on. -/
def applyRescale (cfg : RCfg) (v : ℚ) : ℚ :=
  if rescaleOn cfg then (v + cfg.scalarShift) * cfg.scalarScale else v

/-- The `forceClamping` argument both paths hand to
`vtkGetConversionFunc` (interpolation mode is nearest in this model). -/
def convForce (cfg : RCfg) : Bool :=
  forceClampingOf RESLICE_NEAREST (nsEff cfg) cfg.slabMode

/-- Conversion of a composited float value to the output type, through the
function selected by `vtkGetConversionFunc`. -/
def convertOut (cfg : RCfg) (v : ℚ) : ℚ :=
  if conversionClamps cfg.inType cfg.outType cfg.scalarShift cfg.scalarScale (convForce cfg)
  then resliceClamp cfg.outType v
  else interpolateRound cfg.outType v

/-- The background value written for out-of-bounds voxels: component 0 of
the pixel built by `vtkAllocBackgroundPixel`. -/
def bgOut (cfg : RCfg) : ℚ := backgroundComp (fun _ => cfg.bgColor) cfg.outType 1 0

/-- Clamp an integer index into an extent (border clamp). -/
def clampI (lo hi k : ℤ) : ℤ := max lo (min k hi)

/-- Modelled from the spec: `interpolate_ijk` of the nearest-neighbor
kernel (the interpolator implementation is outside the snapshot) — round
each continuous index and clamp it into the extent. -/
def nearSample (img : RImage) (p : Fin 3 → ℚ) : ℚ :=
  img.val fun a => clampI (img.ext a).1 (img.ext a).2 (rsRound (p a))

/-- Modelled from the spec: the per-axis part of `check_bounds_ijk` — the
in-bounds test widened by the tolerance on both sides. -/
def axisOK (img : RImage) (tol : ℚ) (a : Fin 3) (x : ℚ) : Bool :=
  decide (((img.ext a).1 : ℚ) - tol ≤ x) && decide (x ≤ ((img.ext a).2 : ℚ) + tol)

/-- Modelled from the spec: `check_bounds_ijk`, the conjunction of the
three per-axis tests. -/
def checkB (img : RImage) (tol : ℚ) (p : Fin 3 → ℚ) : Bool :=
  axisOK img tol 0 (p 0) && (axisOK img tol 1 (p 1) && axisOK img tol 2 (p 2))

/-- Output index mapped through the matrix, following the incremental sums
`inPoint0 = origin + idZ*zAxis`, `inPoint1 = inPoint0 + idY*yAxis`,
`inPoint2 = inPoint1 + idX*xAxis` of the general path. -/
def genPoint (m : Mat4) (x y z : ℤ) : Fin 4 → ℚ := fun i =>
  ((m i 3 + (z : ℚ) * m i 2) + (y : ℚ) * m i 1) + (x : ℚ) * m i 0

/-- The perspective check of the general path: the bottom row differs from
`(0, 0, 0, 1)`. -/
def perspectiveOn (m : Mat4) : Bool :=
  !(decide (m 3 0 = 0) && decide (m 3 1 = 0) && decide (m 3 2 = 0) && decide (m 3 3 = 1))

/-- Slab sample offset along the z column:
`s = (sample - 0.5*(nsamples-1)) * slabSampleSpacing`. -/
def slabOffset (cfg : RCfg) (k : ℕ) : ℚ :=
  ((k : ℚ) - ((nsEff cfg : ℚ) - 1) / 2) * cfg.slabFrac

/-- The `k`-th slab sample point of the general path (`inPoint3`); with a
single sample the point is used unchanged. -/
def genSamplePoint (cfg : RCfg) (m : Mat4) (p : Fin 4 → ℚ) (k : ℕ) : Fin 4 → ℚ :=
  if 1 < nsEff cfg then fun i => p i + slabOffset cfg k * m i 2 else p

/-- Spatial projection of a homogeneous point. -/
def pr3 (p : Fin 4 → ℚ) : Fin 3 → ℚ := fun a => p a.castSucc

/-- Perspective divide, performed only when the perspective check fired. -/
def perspDivide (m : Mat4) (p : Fin 4 → ℚ) : Fin 3 → ℚ :=
  if perspectiveOn m then fun a => pr3 p a * (1 / p 3) else pr3 p

/-- The in-bounds samples collected for one voxel by the general path: for
each of the `nsamples` slab points, apply the perspective divide, test
bounds, and interpolate. -/
def genSamples (cfg : RCfg) (m : Mat4) (x y z : ℤ) : List ℚ :=
  (List.range (nsEff cfg)).filterMap fun k =>
    let q := perspDivide m (genSamplePoint cfg m (genPoint m x y z) k)
    if checkB cfg.img cfg.tol q then some (nearSample cfg.img q) else none

/-- Compositing as invoked by the general path: `composite` is called only
when more than one sample was collected. -/
def genComposite (slabMode : SlabMode) (trapezoid : Bool) (l : List ℚ) : ℚ :=
  if l.length ≤ 1 then l.headD 0 else compositeOp slabMode trapezoid l

/-- Per-voxel value of the general path's main loop: background when no
slab sample was in bounds, otherwise the composited samples rescaled and
converted. -/
def genVoxelMain (cfg : RCfg) (m : Mat4) (x y z : ℤ) : ℚ :=
  if (genSamples cfg m x y z).isEmpty then bgOut cfg
  else convertOut cfg (applyRescale cfg
    (genComposite cfg.slabMode cfg.trapezoid (genSamples cfg m x y z)))

/-- Condition of the general path's nearest-neighbor fast sub-path
(`optimizeNearest`): nearest mode and clamp border hold throughout this
model; the remaining checks are no perspective, no rescale, matching
scalar types, the border flag on, and at most one slab sample. -/
def optNearCond (cfg : RCfg) (m : Mat4) : Bool :=
  !perspectiveOn m && !rescaleOn cfg && (cfg.inType == cfg.outType) && cfg.borderFlag &&
    decide (nsEff cfg ≤ 1)

/-- Strict extent membership used by `optimizeNearest` (`inIdX >= 0 &&
inIdX < inExtX`, without tolerance or clamping). -/
def inStrictExt (img : RImage) (u : Fin 3 → ℤ) : Bool :=
  decide ((img.ext 0).1 ≤ u 0 ∧ u 0 ≤ (img.ext 0).2) &&
    (decide ((img.ext 1).1 ≤ u 1 ∧ u 1 ≤ (img.ext 1).2) &&
      decide ((img.ext 2).1 ≤ u 2 ∧ u 2 ≤ (img.ext 2).2))

/-- Per-voxel value of the nearest-neighbor fast sub-path: a raw pixel
copy when the rounded indices are strictly inside the extent, otherwise
background. -/
def genVoxelNear (cfg : RCfg) (m : Mat4) (x y z : ℤ) : ℚ :=
  if inStrictExt cfg.img (fun a => rsRound (pr3 (genPoint m x y z) a))
  then cfg.img.val fun a => rsRound (pr3 (genPoint m x y z) a)
  else bgOut cfg

/-- Per-voxel value of `vtkImageResliceExecute`. -/
def genVoxel (cfg : RCfg) (m : Mat4) (x y z : ℤ) : ℚ :=
  if optNearCond cfg m then genVoxelNear cfg m x y z else genVoxelMain cfg m x y z

/-- The slab-shifted matrix of the permute path: for more than one sample
the translation column of the spatial rows is shifted by
`-0.5 * zColumn * nsamples`. -/
def smat (m : Mat4) (ns : ℕ) : Mat4 :=
  if 1 < ns then
    fun i j => if j = 3 ∧ i ≠ 3 then m i 3 - 1 / 2 * m i 2 * (ns : ℚ) else m i j
  else m

/-- The slab-extended tile of the permute path: the z range grows by
`nsamples - 1` at the top. -/
def sextOf (tile : Fin 3 → ℤ × ℤ) (ns : ℕ) : Fin 3 → ℤ × ℤ :=
  if 1 < ns then ![tile 0, tile 1, ((tile 2).1, (tile 2).2 + ((ns : ℤ) - 1))] else tile

/-- The column holding the single non-zero entry of spatial row `i` of a
permutation+scale+translation matrix. -/
def colOf3 (m : Mat4) (i : Fin 3) : Fin 3 :=
  if m i.castSucc 0 ≠ 0 then 0 else if m i.castSucc 1 ≠ 0 then 1 else 2

/-- The spatial row whose non-zero entry sits in column `a`. -/
def rowFor (m : Mat4) (a : Fin 3) : Fin 3 :=
  if colOf3 m 0 = a then 0 else if colOf3 m 1 = a then 1 else 2

/-- Output coordinates as a triple. -/
def outCoord (x y z : ℤ) : Fin 3 → ℤ := ![x, y, z]

/-- Modelled from the spec: the tabulated position along input axis `i`
produced by `precompute_weights_for_extent` for a
permutation+scale+translation matrix — the row's scale times the driving
output coordinate, plus the row's translation. -/
def permutePos (m' : Mat4) (i : Fin 3) (c : Fin 3 → ℤ) : ℚ :=
  m' i.castSucc (colOf3 m' i).castSucc * (c (colOf3 m' i) : ℚ) + m' i.castSucc 3

/-- Modelled from the spec: the value `interpolate_row` produces at output
coordinates `c` with nearest-neighbor weights — the image value at the
rounded, extent-clamped tabulated positions. -/
def permuteSample (cfg : RCfg) (m' : Mat4) (c : Fin 3 → ℤ) : ℚ :=
  cfg.img.val fun i => clampI (cfg.img.ext i).1 (cfg.img.ext i).2 (rsRound (permutePos m' i c))

/-- Modelled from the spec: the clipped sub-extent (`clipExt`) along
output axis `a` — the output indices inside `[elo, ehi]` whose tabulated
position passes the widened bounds test, written with the ceiling/floor of
the preimage interval endpoints. -/
def clipA (cfg : RCfg) (m' : Mat4) (a : Fin 3) (elo ehi : ℤ) : ℤ × ℤ :=
  if 0 < m' (rowFor m' a).castSucc a.castSucc then
    (max elo ⌈((((cfg.img.ext (rowFor m' a)).1 : ℚ) - cfg.tol) -
        m' (rowFor m' a).castSucc 3) / m' (rowFor m' a).castSucc a.castSucc⌉,
      min ehi ⌊((((cfg.img.ext (rowFor m' a)).2 : ℚ) + cfg.tol) -
        m' (rowFor m' a).castSucc 3) / m' (rowFor m' a).castSucc a.castSucc⌋)
  else if m' (rowFor m' a).castSucc a.castSucc < 0 then
    (max elo ⌈((((cfg.img.ext (rowFor m' a)).2 : ℚ) + cfg.tol) -
        m' (rowFor m' a).castSucc 3) / m' (rowFor m' a).castSucc a.castSucc⌉,
      min ehi ⌊((((cfg.img.ext (rowFor m' a)).1 : ℚ) - cfg.tol) -
        m' (rowFor m' a).castSucc 3) / m' (rowFor m' a).castSucc a.castSucc⌋)
  else (elo, elo - 1)

/-- The `empty |= (iterExt[jj] > iterExt[jj + 1])` accumulation of the
permute path. -/
def clipEmptyB (clip : Fin 3 → ℤ × ℤ) : Bool :=
  decide ((clip 0).2 < (clip 0).1) || decide ((clip 1).2 < (clip 1).1) ||
    decide ((clip 2).2 < (clip 2).1)

/-- The iteration box of the permute path: degenerate when some clip axis
is empty, otherwise the clip box with the z range widened for slabs but
capped at the tile. -/
def iterOf (tile : Fin 3 → ℤ × ℤ) (ns : ℕ) (clip : Fin 3 → ℤ × ℤ) : Fin 3 → ℤ × ℤ :=
  if clipEmptyB clip then
    ![((tile 0).1, (tile 0).1 - 1), ((tile 1).1, (tile 1).1 - 1), ((tile 2).1, (tile 2).1 - 1)]
  else if 1 < ns then
    ![clip 0, clip 1,
      ((clip 2).1 - min ((ns : ℤ) - 1) ((clip 2).1 - (tile 2).1),
        (clip 2).2 + min ((ns : ℤ) - 1) ((tile 2).2 - (clip 2).2))]
  else clip

/-- Box membership for output coordinates. -/
def inBox (b : Fin 3 → ℤ × ℤ) (c : Fin 3 → ℤ) : Bool :=
  decide ((b 0).1 ≤ c 0 ∧ c 0 ≤ (b 0).2) &&
    (decide ((b 1).1 ≤ c 1 ∧ c 1 ≤ (b 1).2) && decide ((b 2).1 ≤ c 2 ∧ c 2 ≤ (b 2).2))

/-- The `doConversion` flag of the permute path (interpolation mode is
nearest in this model): false exactly when the scalar types match, no
rescale is configured, and there is a single slab sample. -/
def doConv (cfg : RCfg) : Bool :=
  !((cfg.inType == cfg.outType) && (!rescaleOn cfg && (nsEff cfg == 1)))

/-- The incomplete-slab sample count of the permute path:
`nsamples1 = nsamples - lowerSkip - upperSkip` with the skips measuring how
far the slab rows for output row `z` stick out of the z clip range. -/
def permuteN1 (cfg : RCfg) (clip2 : ℤ × ℤ) (z : ℤ) : ℤ :=
  (nsEff cfg : ℤ) - max (clip2.1 - z) 0 -
    max (z + ((nsEff cfg : ℤ) - 1) - clip2.2) 0

/-- The slab sample values the permute path composites for output row `z`:
one `interpolate_row` result per surviving slab row, starting at
`z + lowerSkip`. -/
def permuteSlabList (cfg : RCfg) (m' : Mat4) (clip2 : ℤ × ℤ) (x y z : ℤ) : List ℚ :=
  (List.range (permuteN1 cfg clip2 z).toNat).map fun (s : ℕ) =>
    permuteSample cfg m' (outCoord x y (z + max (clip2.1 - z) 0 + (s : ℤ)))

/-- Per-voxel value of `vtkReslicePermuteExecute`: background outside the
iteration box; a raw table lookup on the no-conversion fast path;
otherwise the slab rows overlapping the clip range are interpolated,
composited, rescaled, and converted. -/
def permuteVoxel (cfg : RCfg) (m : Mat4) (tile : Fin 3 → ℤ × ℤ) (x y z : ℤ) : ℚ :=
  if !inBox (iterOf tile (nsEff cfg) fun a =>
      clipA cfg (smat m (nsEff cfg)) a ((sextOf tile (nsEff cfg)) a).1
        ((sextOf tile (nsEff cfg)) a).2) (outCoord x y z) then bgOut cfg
  else if !doConv cfg then permuteSample cfg (smat m (nsEff cfg)) (outCoord x y z)
  else if 1 < permuteN1 cfg (clipA cfg (smat m (nsEff cfg)) 2
      ((sextOf tile (nsEff cfg)) 2).1 ((sextOf tile (nsEff cfg)) 2).2) z then
    convertOut cfg (applyRescale cfg (compositeOp cfg.slabMode cfg.trapezoid
      (permuteSlabList cfg (smat m (nsEff cfg))
        (clipA cfg (smat m (nsEff cfg)) 2 ((sextOf tile (nsEff cfg)) 2).1
          ((sextOf tile (nsEff cfg)) 2).2) x y z)))
  else
    convertOut cfg (applyRescale cfg
      ((permuteSlabList cfg (smat m (nsEff cfg))
        (clipA cfg (smat m (nsEff cfg)) 2 ((sextOf tile (nsEff cfg)) 2).1
          ((sextOf tile (nsEff cfg)) 2).2) x y z).headD 0))

/-- Input image for the C1 counterexample: x and y extents `[0, 0]`, z
extent `[0, 4]`, value `10 * z`. -/
def c1Img : RImage := ⟨![(0, 0), (0, 0), (0, 4)], fun u => ((10 * u 2 : ℤ) : ℚ)⟩

/-- Configuration for the C1 counterexample: `uint8` in and out, default
tolerance `1/2`, no rescale, two mean-composited slab slices, slab spacing
fraction 1 (permute-eligible), border on. -/
def c1Cfg : RCfg :=
  ⟨c1Img, VTKType.uint8, VTKType.uint8, 0, 1 / 2, 0, 1, 2, SlabMode.mean, false, 1, true⟩

/-- Index matrix for the C1 counterexample: identity rotation and scales,
z translation `1/5` (so that no rounding ties occur). -/
def c1M : Mat4 := ![![1, 0, 0, 0], ![0, 1, 0, 0], ![0, 0, 1, 1 / 5], ![0, 0, 0, 1]]

/-- Single-voxel output tile at `(0, 0, 2)` for the C1 counterexample. -/
def c1Tile : Fin 3 → ℤ × ℤ := ![(0, 0), (0, 0), (2, 2)]

/-- Counterexample for claim C1 as stated: a permute-eligible
configuration with two slab slices on which the two execution paths write
different bytes to the same output voxel.  The general path samples the
slab at z offsets `±1/2` around `z + 1/5` (values 20 and 30, mean 25); the
permute path shifts the z translation by `-0.5 * zscale * nsamples` and
samples at offsets `-4/5` and `1/5` (values 10 and 20, mean 15). -/
theorem c1_conv25 : convertOut c1Cfg 25 = 25 := by
  norm_num [convertOut, conversionClamps, rangeNeedsClamp, convForce, forceClampingOf,
    nsEff, c1Cfg, typeMin, typeMax, isFloatType, RESLICE_LINEAR, RESLICE_NEAREST,
    interpolateRound, resliceClamp, rsClampQ, rsRound]

theorem c1_conv15 : convertOut c1Cfg 15 = 15 := by
  norm_num [convertOut, conversionClamps, rangeNeedsClamp, convForce, forceClampingOf,
    nsEff, c1Cfg, typeMin, typeMax, isFloatType, RESLICE_LINEAR, RESLICE_NEAREST,
    interpolateRound, resliceClamp, rsClampQ, rsRound]

theorem c1_rescale (v : ℚ) : applyRescale c1Cfg v = v := by
  norm_num [applyRescale, rescaleOn, c1Cfg]

theorem c1_genSamples : genSamples c1Cfg c1M 0 0 2 = [20, 30] := by
  have hr2 : List.range 2 = [0, 1] := rfl
  have hns : nsEff c1Cfg = 2 := rfl
  unfold genSamples
  rw [hns, hr2]
  norm_num [genSamplePoint, genPoint, perspDivide, perspectiveOn, pr3, checkB, axisOK,
    nearSample, clampI, rsRound, slabOffset, nsEff, c1Cfg, c1Img, c1M,
    List.filterMap_cons, Matrix.vecHead, Matrix.vecTail, castSucc_zero3, castSucc_one3,
    castSucc_two3]

theorem c1_gen : genVoxel c1Cfg c1M 0 0 2 = 25 := by
  have hopt : optNearCond c1Cfg c1M = false := by
    norm_num [optNearCond, nsEff, c1Cfg]
  rw [genVoxel, hopt, if_neg Bool.false_ne_true, genVoxelMain, c1_genSamples]
  norm_num [genComposite, compositeOp, compositeMeanValue, slabSum,
    show c1Cfg.slabMode = SlabMode.mean from rfl, show c1Cfg.trapezoid = false from rfl,
    c1_rescale, c1_conv25]

theorem c1_smat : smat c1M 2 = ![![1, 0, 0, 0], ![0, 1, 0, 0], ![0, 0, 1, -(4 / 5)],
    ![0, 0, 0, 1]] := by
  funext i j
  fin_cases i <;> fin_cases j <;>
    norm_num [smat, c1M, Matrix.vecHead, Matrix.vecTail, Fin.ext_iff] <;> decide

theorem c1_sext : sextOf c1Tile 2 = ![(0, 0), (0, 0), (2, 3)] := by
  funext a
  fin_cases a <;> norm_num [sextOf, c1Tile, Matrix.vecHead, Matrix.vecTail]

theorem c1_clip : (fun a => clipA c1Cfg (smat c1M 2) a ((sextOf c1Tile 2) a).1
    ((sextOf c1Tile 2) a).2) = ![(0, 0), (0, 0), (2, 3)] := by
  rw [c1_smat, c1_sext]
  funext a
  fin_cases a <;>
    norm_num [clipA, rowFor, colOf3, c1Cfg, c1Img, Matrix.vecHead, Matrix.vecTail,
      castSucc_zero3, castSucc_one3, castSucc_two3, Fin.ext_iff, Int.ceil_le,
      Int.le_floor, Int.ceil_eq_iff, Int.floor_eq_iff]

theorem c1_permutePos (z' : ℤ) :
    permutePos (smat c1M 2) 2 (outCoord 0 0 z') = (z' : ℚ) - 4 / 5 := by
  rw [c1_smat]
  norm_num [permutePos, colOf3, outCoord, Matrix.vecHead, Matrix.vecTail,
    castSucc_zero3, castSucc_one3, castSucc_two3]
  ring

theorem c1_permuteSample (z' : ℤ) (hz' : 1 ≤ z' ∧ z' ≤ 5) :
    permuteSample c1Cfg (smat c1M 2) (outCoord 0 0 z') = ((10 * (z' - 1) : ℤ) : ℚ) := by
  have hround : rsRound (permutePos (smat c1M 2) 2 (outCoord 0 0 z')) = z' - 1 := by
    rw [c1_permutePos, rsRound, Int.floor_eq_iff]
    constructor
    · push_cast
      linarith [hz'.1, hz'.2]
    · push_cast
      linarith [hz'.1, hz'.2]
  have hclamp : clampI ((c1Img.ext 2).1) ((c1Img.ext 2).2)
      (rsRound (permutePos (smat c1M 2) 2 (outCoord 0 0 z'))) = z' - 1 := by
    rw [hround]
    have he1 : (c1Img.ext 2).1 = 0 := rfl
    have he2 : (c1Img.ext 2).2 = 4 := rfl
    rw [he1, he2, clampI]
    omega
  show c1Img.val (fun i => clampI ((c1Img.ext i).1) ((c1Img.ext i).2)
    (rsRound (permutePos (smat c1M 2) i (outCoord 0 0 z')))) = ((10 * (z' - 1) : ℤ) : ℚ)
  show ((10 * clampI ((c1Img.ext 2).1) ((c1Img.ext 2).2)
    (rsRound (permutePos (smat c1M 2) 2 (outCoord 0 0 z'))) : ℤ) : ℚ) =
    ((10 * (z' - 1) : ℤ) : ℚ)
  rw [hclamp]

theorem c1_permute : permuteVoxel c1Cfg c1M c1Tile 0 0 2 = 15 := by
  have hns : nsEff c1Cfg = 2 := rfl
  have hiter : iterOf c1Tile 2 (fun a => clipA c1Cfg (smat c1M 2) a
      ((sextOf c1Tile 2) a).1 ((sextOf c1Tile 2) a).2) = ![(0, 0), (0, 0), (2, 2)] := by
    rw [c1_clip]
    funext a
    fin_cases a <;>
      norm_num [iterOf, clipEmptyB, c1Tile, Matrix.vecHead, Matrix.vecTail]
  have hclip2 : clipA c1Cfg (smat c1M 2) 2 ((sextOf c1Tile 2) 2).1
      ((sextOf c1Tile 2) 2).2 = (2, 3) := by
    have h := congrFun c1_clip 2
    simpa using h
  have hbox : inBox ![((0 : ℤ), (0 : ℤ)), (0, 0), (2, 2)] (outCoord 0 0 2) = true := by
    norm_num [inBox, outCoord, Matrix.vecHead, Matrix.vecTail]
  have hresc : rescaleOn c1Cfg = false := by
    norm_num [rescaleOn, show c1Cfg.scalarShift = 0 from rfl,
      show c1Cfg.scalarScale = 1 from rfl]
  have hdc : doConv c1Cfg = true := by
    rw [doConv, hns, hresc]
    norm_num
  have hs0 : permuteSample c1Cfg (smat c1M 2) (outCoord 0 0 2) = 10 := by
    rw [c1_permuteSample 2 (by omega)]
    norm_num
  have hs1 : permuteSample c1Cfg (smat c1M 2) (outCoord 0 0 3) = 20 := by
    rw [c1_permuteSample 3 (by omega)]
    norm_num
  have hn1 : permuteN1 c1Cfg (2, 3) 2 = 2 := by
    rw [permuteN1, hns]
    norm_num
  have hrange : List.range (permuteN1 c1Cfg (2, 3) 2).toNat = [0, 1] := by
    rw [hn1]
    rfl
  have hlist : permuteSlabList c1Cfg (smat c1M 2) (2, 3) 0 0 2 = [10, 20] := by
    rw [permuteSlabList, hrange]
    rw [List.map_cons, List.map_cons, List.map_nil]
    rw [show ((2 : ℤ) + max ((2 : ℤ) - 2) 0 + ((0 : ℕ) : ℤ)) = 2 by norm_num,
      show ((2 : ℤ) + max ((2 : ℤ) - 2) 0 + ((1 : ℕ) : ℤ)) = 3 by norm_num, hs0, hs1]
  unfold permuteVoxel
  rw [hns, hiter, hclip2, hbox, hdc, hlist]
  simp only [Bool.not_true, if_neg Bool.false_ne_true, hn1]
  rw [if_pos (by norm_num)]
  norm_num [compositeOp, compositeMeanValue, slabSum,
    show c1Cfg.slabMode = SlabMode.mean from rfl, show c1Cfg.trapezoid = false from rfl,
    c1_rescale, c1_conv15]

/-- Counterexample for claim C1 as stated: a permute-eligible
configuration with two slab slices on which the two execution paths write
different bytes to the same output voxel.  The general path samples the
slab at z offsets `±1/2` around `z + 1/5` (values 20 and 30, mean 25); the
permute path shifts the z translation by `-0.5 * zscale * nsamples` and
samples at offsets `-4/5` and `1/5` (values 10 and 20, mean 15). -/
theorem claim_C1_counterexample :
    vtkIsPermutationMatrix c1M = true ∧ c1Cfg.slabFrac = 1 ∧ 1 < nsEff c1Cfg ∧
      genVoxel c1Cfg c1M 0 0 2 ≠ permuteVoxel c1Cfg c1M c1Tile 0 0 2 := by
  refine ⟨?_, rfl, by norm_num [nsEff, c1Cfg], ?_⟩
  · norm_num [vtkIsPermutationMatrix, colNZ, c1M, Matrix.vecHead, Matrix.vecTail]
  · rw [c1_gen, c1_permute]
    norm_num

/-- Every index of `Fin 3` is one of the three literals. -/
theorem fin3_cases (a : Fin 3) : a = 0 ∨ a = 1 ∨ a = 2 := by
  fin_cases a <;> simp

/-- A universally quantified statement over `Fin 3` is a three-way conjunction. -/
theorem forall_fin3 {P : Fin 3 → Prop} : (∀ a, P a) ↔ P 0 ∧ P 1 ∧ P 2 := by
  constructor
  · intro h
    exact ⟨h 0, h 1, h 2⟩
  · rintro ⟨h0, h1, h2⟩ a
    rcases fin3_cases a with h | h | h <;> rw [h] <;> assumption

/-- Reindexing a universal statement over `Fin 3` along a permutation. -/
theorem forall_perm3 {P : Fin 3 → Prop} (σ : Equiv.Perm (Fin 3)) :
    (∀ i, P i) ↔ ∀ a, P (σ.symm a) := by
  constructor
  · intro h a
    exact h (σ.symm a)
  · intro h i
    have := h (σ i)
    rwa [Equiv.symm_apply_apply] at this

/-- With one slab slice the effective sample count is one. -/
theorem nsEff_one (cfg : RCfg) (h : cfg.slabNumberOfSlices = 1) : nsEff cfg = 1 := by
  rw [nsEff, h]
  exact max_self 1

/-- With one slab slice the permute matrix keeps its z translation. -/
theorem smat_one (m : Mat4) : smat m 1 = m := if_neg (by omega)

/-- With one slab slice the permute source extent is the tile itself. -/
theorem sextOf_one (tile : Fin 3 → ℤ × ℤ) : sextOf tile 1 = tile := if_neg (by omega)

/-- A matrix whose bottom row is `(0,0,0,1)` is not treated as perspective. -/
theorem perspectiveOn_eq_false (m : Mat4) (hb0 : m 3 0 = 0) (hb1 : m 3 1 = 0)
    (hb2 : m 3 2 = 0) (hb3 : m 3 3 = 1) : perspectiveOn m = false := by
  simp [perspectiveOn, hb0, hb1, hb2, hb3]

/-- Propositional form of the per-axis tolerance bounds check. -/
theorem axisOK_iff (img : RImage) (tol : ℚ) (a : Fin 3) (x : ℚ) :
    axisOK img tol a x = true ↔
      ((img.ext a).1 : ℚ) - tol ≤ x ∧ x ≤ ((img.ext a).2 : ℚ) + tol := by
  simp [axisOK]

/-- The three-axis bounds check holds iff each axis check holds. -/
theorem checkB_iff_forall (img : RImage) (tol : ℚ) (p : Fin 3 → ℚ) :
    checkB img tol p = true ↔ ∀ a, axisOK img tol a (p a) = true := by
  rw [forall_fin3]
  simp [checkB]

/-- Box membership holds iff each coordinate lies in its interval. -/
theorem inBox_iff_forall (b : Fin 3 → ℤ × ℤ) (c : Fin 3 → ℤ) :
    inBox b c = true ↔ ∀ a, (b a).1 ≤ c a ∧ c a ≤ (b a).2 := by
  rw [forall_fin3]
  simp [inBox]

/-- Strict-extent membership holds iff each rounded index is inside. -/
theorem inStrictExt_iff (img : RImage) (u : Fin 3 → ℤ) :
    inStrictExt img u = true ↔ ∀ a, (img.ext a).1 ≤ u a ∧ u a ≤ (img.ext a).2 := by
  rw [forall_fin3]
  simp [inStrictExt]

/-- Rounding an integer-valued rational returns that integer. -/
theorem rsRound_intCast (n : ℤ) : rsRound (n : ℚ) = n := by
  rw [rsRound, Int.floor_eq_iff]
  constructor <;> push_cast <;> linarith

/-- Under a permutation-structured matrix, each mapped coordinate collapses
to a single scale and translation of one output coordinate. -/
theorem genPoint_perm (m : Mat4) (σ : Equiv.Perm (Fin 3)) (x y z : ℤ)
    (hz : ∀ i j : Fin 3, j ≠ σ i → m i.castSucc j.castSucc = 0) (i : Fin 3) :
    pr3 (genPoint m x y z) i =
      m i.castSucc (σ i).castSucc * ((outCoord x y z (σ i) : ℤ) : ℚ) + m i.castSucc 3 := by
  unfold pr3 genPoint outCoord
  rcases fin3_cases (σ i) with h | h | h <;> rw [h]
  · have h1 : m i.castSucc (1 : Fin 3).castSucc = 0 := hz i 1 (by rw [h]; decide)
    have h2 : m i.castSucc (2 : Fin 3).castSucc = 0 := hz i 2 (by rw [h]; decide)
    rw [castSucc_one3] at h1
    rw [castSucc_two3] at h2
    rw [h1, h2, castSucc_zero3]
    simp only [Matrix.cons_val_zero]
    ring
  · have h1 : m i.castSucc (0 : Fin 3).castSucc = 0 := hz i 0 (by rw [h]; decide)
    have h2 : m i.castSucc (2 : Fin 3).castSucc = 0 := hz i 2 (by rw [h]; decide)
    rw [castSucc_zero3] at h1
    rw [castSucc_two3] at h2
    rw [h1, h2, castSucc_one3]
    simp only [Matrix.cons_val_one, Matrix.head_cons]
    ring
  · have h1 : m i.castSucc (0 : Fin 3).castSucc = 0 := hz i 0 (by rw [h]; decide)
    have h2 : m i.castSucc (1 : Fin 3).castSucc = 0 := hz i 1 (by rw [h]; decide)
    rw [castSucc_zero3] at h1
    rw [castSucc_one3] at h2
    rw [h1, h2, castSucc_two3]
    simp only [Matrix.cons_val_two, Matrix.tail_cons, Matrix.head_cons]
    ring

/-- The permute path's column scan identifies the permutation. -/
theorem colOf3_perm (m : Mat4) (σ : Equiv.Perm (Fin 3))
    (hnz : ∀ i : Fin 3, m i.castSucc (σ i).castSucc ≠ 0)
    (hz : ∀ i j : Fin 3, j ≠ σ i → m i.castSucc j.castSucc = 0) (i : Fin 3) :
    colOf3 m i = σ i := by
  unfold colOf3
  rcases fin3_cases (σ i) with h | h | h
  · rw [if_pos]
    · exact h.symm
    · rw [← castSucc_zero3, ← h]
      exact hnz i
  · rw [if_neg, if_pos]
    · exact h.symm
    · rw [← castSucc_one3, ← h]
      exact hnz i
    · rw [← castSucc_zero3]
      intro hc
      exact hc (hz i 0 (by rw [h]; decide))
  · rw [if_neg, if_neg]
    · exact h.symm
    · rw [← castSucc_one3]
      intro hc
      exact hc (hz i 1 (by rw [h]; decide))
    · rw [← castSucc_zero3]
      intro hc
      exact hc (hz i 0 (by rw [h]; decide))

/-- The permute path's row scan identifies the inverse permutation. -/
theorem rowFor_perm (m : Mat4) (σ : Equiv.Perm (Fin 3))
    (hnz : ∀ i : Fin 3, m i.castSucc (σ i).castSucc ≠ 0)
    (hz : ∀ i j : Fin 3, j ≠ σ i → m i.castSucc j.castSucc = 0) (a : Fin 3) :
    rowFor m a = σ.symm a := by
  unfold rowFor
  rw [colOf3_perm m σ hnz hz 0, colOf3_perm m σ hnz hz 1]
  rcases fin3_cases (σ.symm a) with h | h | h
  · rw [if_pos]
    · exact h.symm
    · rw [← h, Equiv.apply_symm_apply]
  · rw [if_neg, if_pos]
    · exact h.symm
    · rw [← h, Equiv.apply_symm_apply]
    · intro hc
      rw [← hc, Equiv.symm_apply_apply] at h
      exact absurd h (by decide)
  · rw [if_neg, if_neg]
    · exact h.symm
    · intro hc
      rw [← hc, Equiv.symm_apply_apply] at h
      exact absurd h (by decide)
    · intro hc
      rw [← hc, Equiv.symm_apply_apply] at h
      exact absurd h (by decide)

/-- A type's own range never needs clamping under the identity rescale. -/
theorem rangeNeedsClamp_self (t : VTKType) : rangeNeedsClamp t t 0 1 = false := by
  have h : ¬(typeMin t + 0) * 1 > (typeMax t + 0) * 1 := by
    rw [add_zero, add_zero, mul_one, mul_one]
    exact not_lt.mpr (typeMin_le_typeMax t)
  rw [rangeNeedsClamp]
  simp only [if_neg h]
  simp

/-- With a single slab sample in nearest mode, no clamping is forced. -/
theorem convForce_one (cfg : RCfg) (h : nsEff cfg = 1) : convForce cfg = false := by
  rw [convForce, forceClampingOf, h]
  norm_num [RESLICE_NEAREST, RESLICE_LINEAR]

/-- The permute path skips its conversion step exactly when the types
match, no rescale is configured, and there is one slab sample. -/
theorem doConv_eq_false_iff (cfg : RCfg) :
    doConv cfg = false ↔
      cfg.inType = cfg.outType ∧ rescaleOn cfg = false ∧ nsEff cfg = 1 := by
  rw [doConv]
  simp

/-- No rescale means the shift is zero and the scale is one. -/
theorem rescaleOn_eq_false_iff (cfg : RCfg) :
    rescaleOn cfg = false ↔ cfg.scalarShift = 0 ∧ cfg.scalarScale = 1 := by
  rw [rescaleOn]
  simp

/-- When the conversion step would be skipped, the conversion function is
the identity on values the input image can produce. -/
theorem convertOut_raw (cfg : RCfg) (hio : cfg.inType = cfg.outType)
    (hsh : cfg.scalarShift = 0) (hsc : cfg.scalarScale = 1) (hns1 : nsEff cfg = 1)
    (v : ℚ) (hint : isFloatType cfg.outType = false → ∃ n : ℤ, v = (n : ℚ)) :
    convertOut cfg v = v := by
  rw [convertOut, convForce_one cfg hns1, hsh, hsc, hio]
  have hcc : conversionClamps cfg.outType cfg.outType 0 1 false = false := by
    rw [conversionClamps, rangeNeedsClamp_self]
    simp
  rw [hcc]
  simp only [Bool.false_eq_true, if_false]
  rw [interpolateRound]
  by_cases hf : isFloatType cfg.outType = true
  · rw [if_pos hf]
  · rw [if_neg hf]
    have hf' : isFloatType cfg.outType = false := by
      cases hq : isFloatType cfg.outType
      · rfl
      · exact absurd hq hf
    obtain ⟨n, rfl⟩ := hint hf'
    rw [rsRound_intCast]

/-- The nearest fast sub-path of the general loop implies the permute
path's no-conversion flag. -/
theorem optNear_doConv (cfg : RCfg) (m : Mat4) (h : optNearCond cfg m = true) :
    doConv cfg = false := by
  rw [optNearCond] at h
  simp only [Bool.and_eq_true, decide_eq_true_eq] at h
  obtain ⟨⟨⟨⟨-, hr⟩, ht⟩, -⟩, hn⟩ := h
  have h1 : 1 ≤ nsEff cfg := by
    rw [nsEff]
    exact le_max_right _ 1
  have hns : nsEff cfg = 1 := by omega
  rw [doConv, hns]
  simp only [Bool.not_eq_true'] at hr
  simp [ht, hr]

/-- The half-open rounding window: the rounded index is inside the extent
iff the position passes the half-voxel tolerance test, provided the
position does not sit exactly on the upper tie point. -/
theorem round_strict_iff (lo hi : ℤ) (p : ℚ) (hne : p ≠ (hi : ℚ) + 1 / 2) :
    (lo ≤ rsRound p ∧ rsRound p ≤ hi) ↔
      ((lo : ℚ) - 1 / 2 ≤ p ∧ p ≤ (hi : ℚ) + 1 / 2) := by
  rw [rsRound]
  constructor
  · rintro ⟨h1, h2⟩
    have hf1 : ((⌊p + 1 / 2⌋ : ℤ) : ℚ) ≤ p + 1 / 2 := Int.floor_le _
    have hf2 : p + 1 / 2 < ((⌊p + 1 / 2⌋ : ℤ) : ℚ) + 1 := Int.lt_floor_add_one _
    have hc1 : ((lo : ℤ) : ℚ) ≤ ((⌊p + 1 / 2⌋ : ℤ) : ℚ) := by exact_mod_cast h1
    have hc2 : ((⌊p + 1 / 2⌋ : ℤ) : ℚ) ≤ ((hi : ℤ) : ℚ) := by exact_mod_cast h2
    constructor <;> linarith
  · rintro ⟨h1, h2⟩
    have h2' : p < (hi : ℚ) + 1 / 2 := lt_of_le_of_ne h2 hne
    constructor
    · rw [Int.le_floor]
      push_cast
      linarith
    · have hlt : ⌊p + 1 / 2⌋ < hi + 1 := by
        rw [Int.floor_lt]
        push_cast
        linarith
      omega

/-- Clamping is the identity on indices already inside the interval. -/
theorem clampI_of_mem (lo hi k : ℤ) (h1 : lo ≤ k) (h2 : k ≤ hi) :
    clampI lo hi k = k := by
  rw [clampI]
  omega

/-- Membership in the permute path's clipped sub-extent is exactly the
widened bounds test of the tabulated position, for indices inside the
request interval and a non-degenerate axis scale. -/
theorem clipA_mem (cfg : RCfg) (m' : Mat4) (a : Fin 3) (elo ehi idx : ℤ)
    (hlo : elo ≤ idx) (hhi : idx ≤ ehi)
    (hs : m' (rowFor m' a).castSucc a.castSucc ≠ 0) :
    ((clipA cfg m' a elo ehi).1 ≤ idx ∧ idx ≤ (clipA cfg m' a elo ehi).2) ↔
      axisOK cfg.img cfg.tol (rowFor m' a)
        (m' (rowFor m' a).castSucc a.castSucc * (idx : ℚ) +
          m' (rowFor m' a).castSucc 3) = true := by
  rw [axisOK_iff, clipA]
  set s := m' (rowFor m' a).castSucc a.castSucc with hs_def
  set t := m' (rowFor m' a).castSucc 3 with ht_def
  have hm : (idx : ℚ) * s = s * (idx : ℚ) := mul_comm _ _
  rcases lt_trichotomy s 0 with hneg | hzero | hpos
  · rw [if_neg (not_lt.mpr hneg.le), if_pos hneg]
    dsimp only
    rw [max_le_iff, le_min_iff, Int.ceil_le, Int.le_floor,
      div_le_iff_of_neg hneg, le_div_iff_of_neg hneg]
    constructor
    · rintro ⟨⟨-, h1⟩, -, h2⟩
      constructor <;> linarith
    · rintro ⟨h1, h2⟩
      exact ⟨⟨hlo, by linarith⟩, hhi, by linarith⟩
  · exact absurd hzero hs
  · rw [if_pos hpos]
    dsimp only
    rw [max_le_iff, le_min_iff, Int.ceil_le, Int.le_floor,
      div_le_iff hpos, le_div_iff hpos]
    constructor
    · rintro ⟨⟨-, h1⟩, -, h2⟩
      constructor <;> linarith
    · rintro ⟨h1, h2⟩
      exact ⟨⟨hlo, by linarith⟩, hhi, by linarith⟩

/-- The permute path's per-axis position agrees with the general mapped point. -/
theorem permutePos_eq (m : Mat4) (σ : Equiv.Perm (Fin 3)) (x y z : ℤ)
    (hnz : ∀ i : Fin 3, m i.castSucc (σ i).castSucc ≠ 0)
    (hz : ∀ i j : Fin 3, j ≠ σ i → m i.castSucc j.castSucc = 0) (i : Fin 3) :
    permutePos m i (outCoord x y z) = pr3 (genPoint m x y z) i := by
  rw [permutePos, colOf3_perm m σ hnz hz i, genPoint_perm m σ x y z hz i]

/-- Membership of an output voxel in every axis's clipped sub-extent is
exactly the general path's widened bounds check on its mapped point. -/
theorem clip_mem_iff_checkB (cfg : RCfg) (m : Mat4) (σ : Equiv.Perm (Fin 3))
    (tile : Fin 3 → ℤ × ℤ) (x y z : ℤ)
    (hnz : ∀ i : Fin 3, m i.castSucc (σ i).castSucc ≠ 0)
    (hz : ∀ i j : Fin 3, j ≠ σ i → m i.castSucc j.castSucc = 0)
    (hvin : ∀ a, (tile a).1 ≤ outCoord x y z a ∧ outCoord x y z a ≤ (tile a).2) :
    (∀ a, (clipA cfg m a (tile a).1 (tile a).2).1 ≤ outCoord x y z a ∧
        outCoord x y z a ≤ (clipA cfg m a (tile a).1 (tile a).2).2) ↔
      checkB cfg.img cfg.tol (pr3 (genPoint m x y z)) = true := by
  rw [checkB_iff_forall]
  refine Iff.trans (forall_congr' ?_) (forall_perm3 σ).symm
  intro a
  have hrf : rowFor m a = σ.symm a := rowFor_perm m σ hnz hz a
  have hs : m (rowFor m a).castSucc a.castSucc ≠ 0 := by
    rw [hrf]
    have := hnz (σ.symm a)
    rwa [Equiv.apply_symm_apply] at this
  rw [clipA_mem cfg m a _ _ _ (hvin a).1 (hvin a).2 hs, hrf,
    genPoint_perm m σ x y z hz (σ.symm a), Equiv.apply_symm_apply]

/-- Claim C1 amended: restricted to a single slab slice
(`slab_number_of_slices = 1`), a permute-eligible tile produces the same
value per voxel on the general path and on the permute path.  The
hypotheses state the permutation+scale+translation structure of the index
matrix, that the voxel lies in the tile, that a non-float input image
holds integer sample values, and — when the general path's nearest fast
sub-path fires — that the tolerance is the half-voxel default and the
mapped point does not sit exactly on an upper rounding tie. -/
theorem claim_C1_amended_path_equiv (cfg : RCfg) (m : Mat4)
    (σ : Equiv.Perm (Fin 3)) (tile : Fin 3 → ℤ × ℤ) (x y z : ℤ)
    (hb0 : m 3 0 = 0) (hb1 : m 3 1 = 0) (hb2 : m 3 2 = 0) (hb3 : m 3 3 = 1)
    (hnz : ∀ i : Fin 3, m i.castSucc (σ i).castSucc ≠ 0)
    (hz : ∀ i j : Fin 3, j ≠ σ i → m i.castSucc j.castSucc = 0)
    (hns : cfg.slabNumberOfSlices = 1)
    (hvin : inBox tile (outCoord x y z) = true)
    (hint : isFloatType cfg.inType = false →
      ∀ u : Fin 3 → ℤ, ∃ n : ℤ, cfg.img.val u = (n : ℚ))
    (hopt : optNearCond cfg m = true →
      cfg.tol = 1 / 2 ∧
        ∀ a : Fin 3, pr3 (genPoint m x y z) a ≠ ((cfg.img.ext a).2 : ℚ) + 1 / 2) :
    genVoxel cfg m x y z = permuteVoxel cfg m tile x y z := by
  have hns1 : nsEff cfg = 1 := nsEff_one cfg hns
  have hvin' := (inBox_iff_forall tile (outCoord x y z)).mp hvin
  have hsm : smat m (nsEff cfg) = m := by
    rw [hns1]
    exact smat_one m
  have hsx : sextOf tile (nsEff cfg) = tile := by
    rw [hns1]
    exact sextOf_one tile
  have hpersp : perspectiveOn m = false := perspectiveOn_eq_false m hb0 hb1 hb2 hb3
  have hmem_iff := clip_mem_iff_checkB cfg m σ tile x y z hnz hz hvin'
  have hsamp : genSamples cfg m x y z =
      if checkB cfg.img cfg.tol (pr3 (genPoint m x y z)) = true
      then [nearSample cfg.img (pr3 (genPoint m x y z))] else [] := by
    rw [genSamples, hns1]
    have hgsp : genSamplePoint cfg m (genPoint m x y z) 0 = genPoint m x y z := by
      rw [genSamplePoint, hns1]
      exact if_neg (by omega)
    have hpd : perspDivide m (genPoint m x y z) = pr3 (genPoint m x y z) := by
      rw [perspDivide, hpersp]
      simp
    have hr1 : List.range 1 = [0] := rfl
    by_cases hc : checkB cfg.img cfg.tol (pr3 (genPoint m x y z)) = true <;>
      simp [hr1, hgsp, hpd, hc]
  have hpseq : permuteSample cfg m (outCoord x y z) =
      nearSample cfg.img (pr3 (genPoint m x y z)) := by
    rw [permuteSample, nearSample]
    congr 1
    funext i
    rw [permutePos_eq m σ x y z hnz hz i]
  have hgc : genComposite cfg.slabMode cfg.trapezoid
      [nearSample cfg.img (pr3 (genPoint m x y z))] =
      nearSample cfg.img (pr3 (genPoint m x y z)) := by
    rw [genComposite]
    simp
  have hc2 : outCoord x y z 2 = z := rfl
  rw [genVoxel, permuteVoxel, hsm, hsx, hns1]
  by_cases hcB : checkB cfg.img cfg.tol (pr3 (genPoint m x y z)) = true
  · have hmem := hmem_iff.mpr hcB
    have hempty : clipEmptyB (fun a => clipA cfg m a (tile a).1 (tile a).2) = false := by
      have h0 := hmem 0
      have h1 := hmem 1
      have h2 := hmem 2
      simp only [clipEmptyB, Bool.or_eq_false_iff, decide_eq_false_iff_not, not_lt]
      refine ⟨⟨?_, ?_⟩, ?_⟩ <;> omega
    have hiter : iterOf tile 1 (fun a => clipA cfg m a (tile a).1 (tile a).2) =
        fun a => clipA cfg m a (tile a).1 (tile a).2 := by
      rw [iterOf, hempty]
      norm_num
    have hbox : inBox (iterOf tile 1 fun a => clipA cfg m a (tile a).1 (tile a).2)
        (outCoord x y z) = true := by
      rw [hiter, inBox_iff_forall]
      exact hmem
    have hcond2 : ¬((!inBox (iterOf tile 1 fun a => clipA cfg m a (tile a).1 (tile a).2)
        (outCoord x y z)) = true) := by
      rw [hbox]
      simp
    rw [if_neg hcond2]
    by_cases hdc : doConv cfg = true
    · have hocf : optNearCond cfg m = false := by
        cases hq : optNearCond cfg m
        · rfl
        · exact absurd (optNear_doConv cfg m hq) (by simp [hdc])
      have h2 := hmem 2
      rw [hc2] at h2
      have hn1 : permuteN1 cfg (clipA cfg m 2 (tile 2).1 (tile 2).2) z = 1 := by
        rw [permuteN1, hns1]
        rw [max_eq_right (by omega : (clipA cfg m 2 (tile 2).1 (tile 2).2).1 - z ≤ 0),
          max_eq_right (by
            push_cast
            omega : z + (((1 : ℕ) : ℤ) - 1) - (clipA cfg m 2 (tile 2).1 (tile 2).2).2 ≤ 0)]
        omega
      have hmax : max ((clipA cfg m 2 (tile 2).1 (tile 2).2).1 - z) 0 = 0 :=
        max_eq_right (by omega)
      have hlist : permuteSlabList cfg m (clipA cfg m 2 (tile 2).1 (tile 2).2) x y z =
          [permuteSample cfg m (outCoord x y z)] := by
        rw [permuteSlabList, hn1]
        rw [show ((1 : ℤ)).toNat = 1 from rfl, show List.range 1 = [0] from rfl,
          List.map_cons, List.map_nil]
        rw [show z + max ((clipA cfg m 2 (tile 2).1 (tile 2).2).1 - z) 0 + ((0 : ℕ) : ℤ) = z by
          rw [hmax]
          norm_num]
      rw [if_neg (by simp [hocf]), genVoxelMain, hsamp, if_pos hcB]
      simp only [List.isEmpty_cons, if_neg Bool.false_ne_true]
      rw [hgc]
      simp only [hdc, Bool.not_true, if_neg Bool.false_ne_true]
      rw [hn1, if_neg (by omega), hlist]
      simp only [List.headD_cons]
      rw [hpseq]
    · have hdcf : doConv cfg = false := by
        cases hq : doConv cfg
        · rfl
        · exact absurd hq hdc
      obtain ⟨hio, hro, -⟩ := (doConv_eq_false_iff cfg).mp hdcf
      obtain ⟨hsh, hsc⟩ := (rescaleOn_eq_false_iff cfg).mp hro
      rw [if_pos (show (!doConv cfg) = true by rw [hdcf]; rfl)]
      by_cases hoc : optNearCond cfg m = true
      · obtain ⟨htol, hties⟩ := hopt hoc
        have hax := (checkB_iff_forall _ _ _).mp hcB
        have hst : inStrictExt cfg.img (fun a => rsRound (pr3 (genPoint m x y z) a)) =
            true := by
          rw [inStrictExt_iff]
          intro a
          have h := hax a
          rw [axisOK_iff, htol] at h
          exact (round_strict_iff _ _ _ (hties a)).mpr h
        rw [if_pos hoc, genVoxelNear, if_pos hst, permuteSample]
        congr 1
        funext i
        have hb := (inStrictExt_iff _ _).mp hst i
        rw [permutePos_eq m σ x y z hnz hz i, clampI_of_mem _ _ _ hb.1 hb.2]
      · rw [if_neg hoc, genVoxelMain, hsamp, if_pos hcB]
        simp only [List.isEmpty_cons, if_neg Bool.false_ne_true]
        rw [hgc, applyRescale, if_neg (by simp [hro])]
        rw [convertOut_raw cfg hio hsh hsc hns1 _ (fun hF => by
          rw [nearSample]
          exact hint (by rw [hio]; exact hF) _)]
        exact hpseq.symm
  · have hboxf : inBox (iterOf tile 1 fun a => clipA cfg m a (tile a).1 (tile a).2)
        (outCoord x y z) = false := by
      by_cases he : clipEmptyB (fun a => clipA cfg m a (tile a).1 (tile a).2) = true
      · rw [iterOf, if_pos he]
        cases hq : inBox ![((tile 0).1, (tile 0).1 - 1), ((tile 1).1, (tile 1).1 - 1),
            ((tile 2).1, (tile 2).1 - 1)] (outCoord x y z)
        · rfl
        · exfalso
          have h0 := (inBox_iff_forall _ _).mp hq 0
          simp only [Matrix.cons_val_zero] at h0
          omega
      · have he' : clipEmptyB (fun a => clipA cfg m a (tile a).1 (tile a).2) = false := by
          cases hq : clipEmptyB (fun a => clipA cfg m a (tile a).1 (tile a).2)
          · rfl
          · exact absurd hq he
        rw [iterOf, if_neg (by simp [he']), if_neg (by omega : ¬(1 : ℕ) < 1)]
        cases hq : inBox (fun a => clipA cfg m a (tile a).1 (tile a).2) (outCoord x y z)
        · rfl
        · exact absurd (hmem_iff.mp ((inBox_iff_forall _ _).mp hq)) hcB
    rw [if_pos (show (!inBox (iterOf tile 1 fun a => clipA cfg m a (tile a).1 (tile a).2)
      (outCoord x y z)) = true by rw [hboxf]; rfl)]
    by_cases hoc : optNearCond cfg m = true
    · obtain ⟨htol, hties⟩ := hopt hoc
      have hstf : inStrictExt cfg.img (fun a => rsRound (pr3 (genPoint m x y z) a)) =
          false := by
        cases hq : inStrictExt cfg.img fun a => rsRound (pr3 (genPoint m x y z) a)
        · rfl
        · exfalso
          apply hcB
          rw [checkB_iff_forall]
          intro a
          rw [axisOK_iff, htol]
          exact (round_strict_iff _ _ _ (hties a)).mp ((inStrictExt_iff _ _).mp hq a)
      rw [if_pos hoc, genVoxelNear, if_neg (by simp [hstf])]
    · rw [if_neg hoc, genVoxelMain, hsamp, if_neg hcB]
      simp

/-- The C1 configuration restricted to a single slab slice, on which the
amended equivalence is exercised. -/
def c1CfgOne : RCfg :=
  ⟨c1Img, .uint8, .uint8, 0, 1 / 2, 0, 1, 1, SlabMode.mean, false, 1, true⟩

/-- Witness for the amended C1 theorem: on the single-slice variant of the
counterexample configuration, the identity permutation discharges every
hypothesis at voxel `(0, 0, 2)` and the two paths agree there. -/
theorem claim_C1_amended_witness :
    genVoxel c1CfgOne c1M 0 0 2 = permuteVoxel c1CfgOne c1M c1Tile 0 0 2 :=
  claim_C1_amended_path_equiv c1CfgOne c1M (Equiv.refl (Fin 3)) c1Tile 0 0 2
    rfl rfl rfl rfl
    (by
      intro i
      rcases fin3_cases i with hi | hi | hi <;> subst hi <;>
        norm_num [Equiv.refl_apply, c1M, castSucc_zero3, castSucc_one3, castSucc_two3,
          Matrix.vecHead, Matrix.vecTail])
    (by
      intro i j hij
      simp only [Equiv.refl_apply] at hij
      rcases fin3_cases i with hi | hi | hi <;> rcases fin3_cases j with hj | hj | hj <;>
        subst hi <;> subst hj <;>
        first
          | exact absurd rfl hij
          | norm_num [c1M, castSucc_zero3, castSucc_one3, castSucc_two3,
              Matrix.vecHead, Matrix.vecTail])
    rfl
    (by decide)
    (fun _ u => ⟨10 * u 2, rfl⟩)
    (fun _ => ⟨rfl, by
      intro a
      rcases fin3_cases a with ha | ha | ha <;> subst ha <;>
        norm_num [pr3, genPoint, c1M, c1Img, c1CfgOne, castSucc_zero3, castSucc_one3,
          castSucc_two3, Matrix.vecHead, Matrix.vecTail]⟩)

end VTKReslice
